import Mathlib

/-!
# Colour name resolution and colour translation (lib/common/colxlate.c)

A shallow embedding of `colxlate.c`.  C strings are modelled as `List Char`
(the characters before the terminating NUL), a `char*` that may be `NULL` as
`Option (List Char)`.  The file-level statics `colorscheme` and `last` are made
an explicit state that is threaded through the functions that use them: first
as the strings a call reads (`State`), then as they are stored, with the scheme
pointer and the buffer of `canontoken` it can point into (`Statics`).
-/

namespace Colxlate

/-! ## Character and string routines of the C library used by the source -/

/-- The `isupper` of `<ctype.h>` in the C locale. -/
def isupper (c : Char) : Bool := 65 ≤ c.toNat && c.toNat ≤ 90

/-- The `tolower` of `<ctype.h>` in the C locale. -/
def tolower (c : Char) : Char := if isupper c then Char.ofNat (c.toNat + 32) else c

/-- The `isdigit` of `<ctype.h>`. -/
def isdigit (c : Char) : Bool := 48 ≤ c.toNat && c.toNat ≤ 57

/-- The `isspace` of `<ctype.h>` in the C locale. -/
def isspace (c : Char) : Bool := c.toNat = 32 || (9 ≤ c.toNat && c.toNat ≤ 13)

/-- The `strchr` of `<string.h>` for a character other than NUL: the suffix that
starts at the first occurrence of `ch`, or `none` (the null pointer). -/
def strchr : List Char → Char → Option (List Char)
  | [], _ => none
  | c :: s, ch => if c = ch then some (c :: s) else strchr s ch

/-- The `strncasecmp` of `<strings.h>`: compares at most `n` characters, ignoring
letter case; the end of a string compares as the NUL character. -/
def strncasecmp : List Char → List Char → Nat → Int
  | _, _, 0 => 0
  | [], [], _ + 1 => 0
  | [], b :: _, _ + 1 => 0 - ((tolower b).toNat : Int)
  | a :: _, [], _ + 1 => ((tolower a).toNat : Int)
  | a :: s1, b :: s2, n + 1 =>
    if tolower a = tolower b then strncasecmp s1 s2 n
    else ((tolower a).toNat : Int) - ((tolower b).toNat : Int)

/-- The `strcasecmp` of `<strings.h>`. -/
def strcasecmp : List Char → List Char → Int
  | [], [] => 0
  | [], b :: _ => 0 - ((tolower b).toNat : Int)
  | a :: _, [] => ((tolower a).toNat : Int)
  | a :: s1, b :: s2 =>
    if tolower a = tolower b then strcasecmp s1 s2
    else ((tolower a).toNat : Int) - ((tolower b).toNat : Int)

/-! ## canontoken, fullColor, resolveColor -/

/-- The function `canontoken`: a copy of `str` in which every upper-case letter is
replaced by its lower-case form. -/
def canontoken : List Char → List Char
  | [] => []
  | c :: p => (if isupper c then tolower c else c) :: canontoken p

/-- The function `fullColor`: the string "/prefix/str". -/
def fullColor (pfx str : List Char) : List Char :=
  '/' :: (pfx ++ '/' :: str)

/-- The macro `DFLT_SCHEME`. -/
def DFLT_SCHEME : List Char := ['X', '1', '1', '/']

/-- The macro `DFLT_SCHEME_LEN`. -/
def DFLT_SCHEME_LEN : Nat := 4

/-- The macro `ISNONDFLT(s)`: `s` is not null, not empty, and its first
`DFLT_SCHEME_LEN-1` characters differ from those of `DFLT_SCHEME`. -/
def ISNONDFLT (s : Option (List Char)) : Bool :=
  match s with
  | none => false
  | some cs => cs ≠ [] && strncasecmp DFLT_SCHEME cs (DFLT_SCHEME_LEN - 1) ≠ 0

/-- The function `resolveColor`, with the static `colorscheme` as first argument.
`strcmp(a, b) == 0` is equality of the two strings, `*str` is `str.head?` and
`str+1` is `str.tail`. -/
def resolveColor (colorscheme : Option (List Char)) (str : List Char) : List Char :=
  if str = "black".toList then str
  else if str = "white".toList then str
  else if str = "lightgrey".toList then str
  else
    let s : List Char :=
      if str.head? = some '/' then
        let c2 := str.tail
        match strchr c2 '/' with
        | some ss =>
          if c2.head? = some '/' then
            if ISNONDFLT colorscheme then fullColor (colorscheme.getD []) c2.tail
            else c2.tail
          else if strncasecmp DFLT_SCHEME c2 DFLT_SCHEME_LEN ≠ 0 then str
          else ss.tail
        | none => c2
      else if ISNONDFLT colorscheme then fullColor (colorscheme.getD []) str
      else str
    canontoken s

/-! ## Colour values (common/color.h) -/

/-- The enumeration `color_type_t`.  An `int` that is none of the seven
enumerators is `other n`. -/
inductive color_type_t where
  | HSVA_DOUBLE
  | RGBA_BYTE
  | RGBA_WORD
  | CMYK_BYTE
  | RGBA_DOUBLE
  | COLOR_STRING
  | COLOR_INDEX
  | other (n : Nat)
  deriving DecidableEq, Repr

/-- The union `u` of a `gvcolor_t`, tagged with the member that was stored last.
A `double` is modelled as an exact rational (rounding is outside the model), an
`unsigned char` as a natural number below 256, an `int` as an integer. -/
inductive color_u where
  | RGBA (r g b a : ℚ)
  | HSVA (h s v a : ℚ)
  | rgba (r g b a : Nat)
  | cmyk (c m y k : Nat)
  | rrggbbaa (r g b a : Int)
  | string (s : List Char)
  | index (i : Int)
  deriving DecidableEq

/-- The struct `gvcolor_t`. -/
structure gvcolor_t where
  u : color_u
  type : color_type_t
  deriving DecidableEq

/-- The struct `hsvrgbacolor_t`, an entry of the colour table `color_lib`. -/
structure hsvrgbacolor_t where
  name : List Char
  h : Nat
  s : Nat
  v : Nat
  r : Nat
  g : Nat
  b : Nat
  a : Nat
  deriving DecidableEq

/-- The return codes `COLOR_OK`, `COLOR_UNKNOWN` and `COLOR_MALLOC_FAIL`. -/
inductive color_rc where
  | COLOR_OK
  | COLOR_UNKNOWN
  | COLOR_MALLOC_FAIL
  deriving DecidableEq, Repr

/-- Conversion of a `double` to `int`: truncation toward zero. -/
def dtoi (x : ℚ) : Int := if 0 ≤ x then ⌊x⌋ else ⌈x⌉

/-- Conversion of an `int` to `unsigned char`: reduction modulo 256. -/
def toUChar (x : Int) : Nat := (x % 256).toNat

/-- The value an `int` holds after a computation whose exact result is `x`
(two's complement, 32 bits). -/
def toInt32 (x : Int) : Int := (x + 2147483648) % 4294967296 - 2147483648

/-! ## hsv2rgb, rgb2hsv, rgb2cmyk -/

/-- The function `hsv2rgb`.  The last argument is the content of `*r`, `*g`, `*b`
before the call, which the `switch` leaves in place when `i` is not in `0..5`. -/
def hsv2rgb (h s v : ℚ) (rgb : ℚ × ℚ × ℚ) : ℚ × ℚ × ℚ :=
  if s ≤ 0 then (v, v, v)
  else
    let h := if h ≥ 1 then 0 else h
    let h := 6 * h
    let i := dtoi h
    let f := h - (i : ℚ)
    let p := v * (1 - s)
    let q := v * (1 - s * f)
    let t := v * (1 - s * (1 - f))
    if i = 0 then (v, t, p)
    else if i = 1 then (q, v, p)
    else if i = 2 then (p, v, t)
    else if i = 3 then (p, q, v)
    else if i = 4 then (t, p, v)
    else if i = 5 then (v, p, q)
    else rgb

/-- The function `rgb2hsv`; the result is `(h, s, v)`. -/
def rgb2hsv (r g b : ℚ) : ℚ × ℚ × ℚ :=
  let rgbmin := min r (min g b)
  let rgbmax := max r (max g b)
  let st : ℚ := if rgbmax > 0 then (rgbmax - rgbmin) / rgbmax else 0
  let ht : ℚ :=
    if st > 0 then
      let rc := (rgbmax - r) / (rgbmax - rgbmin)
      let gc := (rgbmax - g) / (rgbmax - rgbmin)
      let bc := (rgbmax - b) / (rgbmax - rgbmin)
      let ht : ℚ :=
        if r = rgbmax then bc - gc
        else if g = rgbmax then 2 + rc - bc
        else if b = rgbmax then 4 + gc - rc
        else 0
      let ht := ht * 60
      if ht < 0 then ht + 360 else ht
    else 0
  (ht / 360, st, rgbmax)

/-- The function `rgb2cmyk`; the result is `(c, m, y, k)`. -/
def rgb2cmyk (r g b : ℚ) : ℚ × ℚ × ℚ × ℚ :=
  let c := 1 - r
  let m := 1 - g
  let y := 1 - b
  let k := min c m
  let k := min y k
  (c - k, m - k, y - k, k)

/-! ## Scanning and printing of hexadecimal bytes (sscanf, snprintf) -/

/-- The value of a hexadecimal digit, `none` for any other character. -/
def hexval (c : Char) : Option Nat :=
  if isdigit c then some (c.toNat - 48)
  else if 97 ≤ c.toNat ∧ c.toNat ≤ 102 then some (c.toNat - 87)
  else if 65 ≤ c.toNat ∧ c.toNat ≤ 70 then some (c.toNat - 55)
  else none

/-- White space skipped by a conversion directive of `sscanf`. -/
def skipws : List Char → List Char
  | [] => []
  | c :: s => if isspace c then skipws s else c :: s

/-- The directive `%2x` of `sscanf` (ISO C 7.21.6.2): after white space, the longest
prefix of at most two characters that is, or begins, an optionally signed
hexadecimal integer; the directive fails when that prefix is not itself such an
integer (a lone sign, or "0x" filling the field).  The result is the `unsigned
int` stored and the rest of the input. -/
def scan_2x (s : List Char) : Option (Nat × List Char) :=
  match skipws s with
  | [] => none
  | c :: t =>
    if c = '+' ∨ c = '-' then
      match t with
      | [] => none
      | d :: t2 =>
        match hexval d with
        | none => none
        | some v => some (if c = '-' then (4294967296 - v) % 4294967296 else v, t2)
    else
      match hexval c with
      | none => none
      | some v1 =>
        match t with
        | [] => some (v1, [])
        | d :: t2 =>
          if c = '0' ∧ (d = 'x' ∨ d = 'X') then none
          else
            match hexval d with
            | none => some (v1, t)
            | some v2 => some (v1 * 16 + v2, t2)

/-- The call `sscanf(p, "#%2x%2x%2x%2x", &r, &g, &b, &a) >= 3`: `some (r, g, b, a)`
when at least three conversions succeed, where `a` keeps the value `a0` it had
before the call when the fourth conversion fails. -/
def sscanf_hex (p : List Char) (a0 : Nat) : Option (Nat × Nat × Nat × Nat) :=
  if p.head? = some '#' then
    match scan_2x p.tail with
    | none => none
    | some (r, p1) =>
      match scan_2x p1 with
      | none => none
      | some (g, p2) =>
        match scan_2x p2 with
        | none => none
        | some (b, p3) =>
          match scan_2x p3 with
          | none => some (r, g, b, a0)
          | some (a, _) => some (r, g, b, a)
  else none

/-- The conversion `%02x` of `snprintf`: lower-case hexadecimal, at least two
digits. -/
def fmt_02x (n : Nat) : List Char :=
  if n < 16 then ['0', Nat.digitChar n] else Nat.toDigits 16 n

/-- The output of `snprintf(buf, sizeof(buf), "#%02x%02x%02x%02x", r, g, b, a)`. -/
def snprintf_hex (r g b a : Nat) : List Char :=
  '#' :: (fmt_02x r ++ (fmt_02x g ++ (fmt_02x b ++ fmt_02x a)))

/-! ## The colour table and its search (common/colortbl.h, bsearch) -/

/-- The comparison function `colorcmpf`. -/
def colorcmpf (p0 p1 : hsvrgbacolor_t) : Int := strcasecmp p0.name p1.name

/-- The loop of `bsearch` on the index range `lo..hi`; the first argument bounds
the number of iterations. -/
def bsearchAux (key : hsvrgbacolor_t) (base : List hsvrgbacolor_t)
    (compar : hsvrgbacolor_t → hsvrgbacolor_t → Int) :
    Nat → Nat → Nat → Option hsvrgbacolor_t
  | 0, _, _ => none
  | fuel + 1, lo, hi =>
    if lo < hi then
      let mid := (lo + hi) / 2
      match base[mid]? with
      | none => none
      | some e =>
        let c := compar key e
        if c < 0 then bsearchAux key base compar fuel lo mid
        else if c > 0 then bsearchAux key base compar fuel (mid + 1) hi
        else some e
    else none

/-- The `bsearch` of `<stdlib.h>` over the whole table.  Every iteration shrinks
the range, so `base.length` iterations are enough. -/
def bsearch (key : hsvrgbacolor_t) (base : List hsvrgbacolor_t)
    (compar : hsvrgbacolor_t → hsvrgbacolor_t → Int) : Option hsvrgbacolor_t :=
  bsearchAux key base compar base.length 0 base.length

/-- What `colxlate.c` takes from outside the file: the table `color_lib` of
common/colortbl.h, and the two library calls on `double`s,
`sscanf(canon, "%lf%lf%lf", &H, &S, &V) == 3` (the three numbers, or `none`) and
`snprintf(buf, sizeof(buf), "%.03f %.03f %.03f %.03f", ...)`. -/
structure Env where
  color_lib : List hsvrgbacolor_t
  sscanf_lf3 : List Char → Option (ℚ × ℚ × ℚ)
  snprintf_hsva : ℚ → ℚ → ℚ → ℚ → List Char

/-- What a call reads of the statics: `colorscheme`, the string that the static
pointer `colorscheme` points to while the call reads it (`none` for the null
pointer), and `last` (of `colorxlate`), as the table entry it points to.  The
pointer itself and the buffer it can point into are in `Statics` below. -/
structure State where
  colorscheme : Option (List Char)
  last : Option hsvrgbacolor_t

/-- The statics at program start: both null. -/
def State.init : State := ⟨none, none⟩

/-! ## colorxlate -/

open color_type_t color_rc in
/-- The `switch` of `colorxlate` after a successful `#` scan (lines 262-308):
the new content of `color->u`, or `none` for the unreachable default case.
`r`, `g`, `b`, `a` are `unsigned int`s. -/
def colorxlate_hex (r g b a : Nat) (u : color_u) : color_type_t → Option color_u
  | HSVA_DOUBLE =>
    let R : ℚ := (r : ℚ) / 255
    let G : ℚ := (g : ℚ) / 255
    let B : ℚ := (b : ℚ) / 255
    let A : ℚ := (a : ℚ) / 255
    let hsv := rgb2hsv R G B
    some (.HSVA hsv.1 hsv.2.1 hsv.2.2 A)
  | RGBA_BYTE => some (.rgba (r % 256) (g % 256) (b % 256) (a % 256))
  | CMYK_BYTE =>
    let R : ℚ := (r : ℚ) / 255
    let G : ℚ := (g : ℚ) / 255
    let B : ℚ := (b : ℚ) / 255
    let cmyk := rgb2cmyk R G B
    some (.cmyk (toUChar (dtoi cmyk.1 * 255)) (toUChar (dtoi cmyk.2.1 * 255))
      (toUChar (dtoi cmyk.2.2.1 * 255)) (toUChar (dtoi cmyk.2.2.2 * 255)))
  | RGBA_WORD =>
    some (.rrggbbaa (toInt32 ((r * 65535 % 4294967296 / 255 : Nat) : Int))
      (toInt32 ((g * 65535 % 4294967296 / 255 : Nat) : Int))
      (toInt32 ((b * 65535 % 4294967296 / 255 : Nat) : Int))
      (toInt32 ((a * 65535 % 4294967296 / 255 : Nat) : Int)))
  | RGBA_DOUBLE =>
    some (.RGBA ((r : ℚ) / 255) ((g : ℚ) / 255) ((b : ℚ) / 255) ((a : ℚ) / 255))
  | COLOR_STRING => some u
  | COLOR_INDEX => some u
  | other _ => none

open color_type_t color_rc in
/-- The `switch` of `colorxlate` after a successful scan of three numbers (lines
329-374), the clipping to `[0, 1]` included.  `R`, `G`, `B` are not initialised
before `hsv2rgb`; the model passes zeros. -/
def colorxlate_hsv (H S V : ℚ) (u : color_u) (target_type : color_type_t) : Option color_u :=
  let H := max (min H 1) 0
  let S := max (min S 1) 0
  let V := max (min V 1) 0
  match target_type with
  | HSVA_DOUBLE => some (.HSVA H S V 1)
  | RGBA_BYTE =>
    let rgb := hsv2rgb H S V (0, 0, 0)
    some (.rgba (toUChar (dtoi (rgb.1 * 255))) (toUChar (dtoi (rgb.2.1 * 255)))
      (toUChar (dtoi (rgb.2.2 * 255))) 255)
  | CMYK_BYTE =>
    let rgb := hsv2rgb H S V (0, 0, 0)
    let cmyk := rgb2cmyk rgb.1 rgb.2.1 rgb.2.2
    some (.cmyk (toUChar (dtoi cmyk.1 * 255)) (toUChar (dtoi cmyk.2.1 * 255))
      (toUChar (dtoi cmyk.2.2.1 * 255)) (toUChar (dtoi cmyk.2.2.2 * 255)))
  | RGBA_WORD =>
    let rgb := hsv2rgb H S V (0, 0, 0)
    some (.rrggbbaa (dtoi (rgb.1 * 65535)) (dtoi (rgb.2.1 * 65535))
      (dtoi (rgb.2.2 * 65535)) 65535)
  | RGBA_DOUBLE =>
    let rgb := hsv2rgb H S V (0, 0, 0)
    some (.RGBA rgb.1 rgb.2.1 rgb.2.2 1)
  | COLOR_STRING => some u
  | COLOR_INDEX => some u
  | other _ => none

open color_type_t color_rc in
/-- The `switch` of `colorxlate` for a name found in the table (lines 388-429). -/
def colorxlate_name (last : hsvrgbacolor_t) (u : color_u) : color_type_t → Option color_u
  | HSVA_DOUBLE =>
    some (.HSVA ((last.h : ℚ) / 255) ((last.s : ℚ) / 255) ((last.v : ℚ) / 255)
      ((last.a : ℚ) / 255))
  | RGBA_BYTE => some (.rgba last.r last.g last.b last.a)
  | CMYK_BYTE =>
    let R : ℚ := (last.r : ℚ) / 255
    let G : ℚ := (last.g : ℚ) / 255
    let B : ℚ := (last.b : ℚ) / 255
    let cmyk := rgb2cmyk R G B
    some (.cmyk (toUChar (dtoi cmyk.1 * 255)) (toUChar (dtoi cmyk.2.1 * 255))
      (toUChar (dtoi cmyk.2.2.1 * 255)) (toUChar (dtoi cmyk.2.2.2 * 255)))
  | RGBA_WORD =>
    some (.rrggbbaa (Int.tdiv (toInt32 ((last.r : Int) * 65535)) 255)
      (Int.tdiv (toInt32 ((last.g : Int) * 65535)) 255)
      (Int.tdiv (toInt32 ((last.b : Int) * 65535)) 255)
      (Int.tdiv (toInt32 ((last.a : Int) * 65535)) 255))
  | RGBA_DOUBLE =>
    some (.RGBA ((last.r : ℚ) / 255) ((last.g : ℚ) / 255) ((last.b : ℚ) / 255)
      ((last.a : ℚ) / 255))
  | COLOR_STRING => some u
  | COLOR_INDEX => some u
  | other _ => none

open color_type_t color_rc in
/-- The `switch` of `colorxlate` when no valid colour was found (lines 433-462). -/
def colorxlate_unknown (u : color_u) : color_type_t → Option color_u
  | HSVA_DOUBLE => some (.HSVA 0 0 0 1)
  | RGBA_BYTE => some (.rgba 0 0 0 255)
  | CMYK_BYTE => some (.cmyk 0 0 0 0)
  | RGBA_WORD => some (.rrggbbaa 0 0 0 65535)
  | RGBA_DOUBLE => some (.RGBA 0 0 0 1)
  | COLOR_STRING => some u
  | COLOR_INDEX => some u
  | other _ => none

/-- The loop `for (; *str == ' '; str++);` of `colorxlate`. -/
def skip_blanks : List Char → List Char
  | [] => []
  | c :: s => if c = ' ' then skip_blanks s else c :: s

/-- The copy loop of the HSV test of `colorxlate`: every comma becomes a blank. -/
def commas_to_blanks : List Char → List Char
  | [] => []
  | c :: p => (if c = ',' then ' ' else c) :: commas_to_blanks p

open color_type_t color_rc in
/-- The function `colorxlate`.  The result is `none` when the call runs into
`UNREACHABLE()`, else the statics after the call, the return code and `*color`
after the call.  `resolveColor` returns no null pointer here (memory allocation
is outside the model), so the `COLOR_MALLOC_FAIL` exit is not taken. -/
def colorxlate (env : Env) (st : State) (str : List Char) (color : gvcolor_t)
    (target_type : color_type_t) : Option (State × color_rc × gvcolor_t) :=
  let str := skip_blanks str
  let p := str
  match (if p.head? = some '#' then sscanf_hex p 255 else none) with
  | some (r, g, b, a) =>
    (colorxlate_hex r g b a color.u target_type).map
      (fun u => (st, COLOR_OK, ⟨u, target_type⟩))
  | none =>
    match (if p.head? = some '.' ∨ (p.head?.map isdigit) = some true
           then env.sscanf_lf3 (commas_to_blanks p) else none) with
    | some (H, S, V) =>
      (colorxlate_hsv H S V color.u target_type).map
        (fun u => (st, COLOR_OK, ⟨u, target_type⟩))
    | none =>
      let name := resolveColor st.colorscheme str
      let last :=
        if st.last = none ∨ st.last.map (fun e => e.name) ≠ some name then
          bsearch ⟨name, 0, 0, 0, 0, 0, 0, 0⟩ env.color_lib colorcmpf
        else st.last
      match last with
      | some e =>
        (colorxlate_name e color.u target_type).map
          (fun u => ({ st with last := last }, COLOR_OK, ⟨u, target_type⟩))
      | none =>
        (colorxlate_unknown color.u target_type).map
          (fun u => ({ st with last := last }, COLOR_UNKNOWN, ⟨u, target_type⟩))

/-! ## colorCvt -/

/-- One iteration of the loop of `rgba_wordToByte`:
`rgba[i] = rrggbbaa[i] * 255 / 65535`. -/
def wordToByte (w : Int) : Nat := toUChar (Int.tdiv (toInt32 (w * 255)) 65535)

/-- The function `rgba_wordToByte`. -/
def rgba_wordToByte (r g b a : Int) : Nat × Nat × Nat × Nat :=
  (wordToByte r, wordToByte g, wordToByte b, wordToByte a)

/-- One iteration of the loop of `rgba_dblToByte`:
`rgba[i] = (unsigned char)(RGBA[i] * 255)`. -/
def dblToByte (x : ℚ) : Nat := toUChar (dtoi (x * 255))

/-- The function `rgba_dblToByte`. -/
def rgba_dblToByte (r g b a : ℚ) : Nat × Nat × Nat × Nat :=
  (dblToByte r, dblToByte g, dblToByte b, dblToByte a)

open color_type_t color_rc in
/-- The function `colorCvt`; the result has the statics after the call, the return
code and `*ncolor` after the call.  Reading a member of the union `ocolor->u`
other than the one stored last is outside the model (`none`). -/
def colorCvt (env : Env) (st : State) (ocolor ncolor : gvcolor_t) :
    Option (State × color_rc × gvcolor_t) :=
  if ocolor.type = ncolor.type then
    some (st, COLOR_OK, { ncolor with u := ocolor.u })
  else
    match ocolor.type with
    | HSVA_DOUBLE =>
      match ocolor.u with
      | .HSVA h s v a => colorxlate env st (env.snprintf_hsva h s v a) ncolor ncolor.type
      | _ => none
    | RGBA_BYTE =>
      match ocolor.u with
      | .rgba r g b a => colorxlate env st (snprintf_hex r g b a) ncolor ncolor.type
      | _ => none
    | RGBA_WORD =>
      match ocolor.u with
      | .rrggbbaa r g b a =>
        let rgba := rgba_wordToByte r g b a
        colorxlate env st (snprintf_hex rgba.1 rgba.2.1 rgba.2.2.1 rgba.2.2.2) ncolor
          ncolor.type
      | _ => none
    | RGBA_DOUBLE =>
      match ocolor.u with
      | .RGBA r g b a =>
        let rgba := rgba_dblToByte r g b a
        colorxlate env st (snprintf_hex rgba.1 rgba.2.1 rgba.2.2.1 rgba.2.2.2) ncolor
          ncolor.type
      | _ => none
    | COLOR_STRING =>
      match ocolor.u with
      | .string s => colorxlate env st s ncolor ncolor.type
      | _ => none
    | CMYK_BYTE => some (st, COLOR_UNKNOWN, ncolor)
    | COLOR_INDEX => some (st, COLOR_UNKNOWN, ncolor)
    | other _ => some (st, COLOR_UNKNOWN, ncolor)

/-! ## The statics with the scheme pointer and the buffer of canontoken -/

/-- A `char*` as `setColorScheme` can receive it: the null pointer, a pointer to a
string of the caller that no function of this file writes (given by its
content), or the pointer that `canontoken` returned while block number `block`
was the current allocation of its static buffer `canon`.  The buffers of
`fullColor` and `colorxlate` are never handed out. -/
inductive scheme_ptr where
  | null
  | caller (s : List Char)
  | canon (block : Nat)
  deriving DecidableEq

/-- The statics of the file as they are stored: the pointer `colorscheme`, `last`,
and of `canontoken` the string in its buffer `canon`, the size `allocated` and the
number of the current block of `canon` (0 while `canon` is null, one more after
every `grealloc`, which ends the life of the previous block). -/
structure Statics where
  colorscheme : scheme_ptr
  last : Option hsvrgbacolor_t
  canon : List Char
  allocated : Nat
  block : Nat
  deriving DecidableEq

/-- The statics at program start: null pointers, nothing allocated. -/
def Statics.init : Statics := ⟨.null, none, [], 0, 0⟩

/-- The function `canontoken` with its statics: the buffer is reallocated when
`len >= allocated`, then receives the lower-cased copy; the result is the
pointer `canon`. -/
def canontoken_mem (m : Statics) (str : List Char) : Statics × scheme_ptr :=
  let m1 : Statics :=
    if str.length ≥ m.allocated then
      { m with allocated := str.length + 1 + 10, block := m.block + 1 }
    else m
  ({ m1 with canon := canontoken str }, .canon m1.block)

/-- The string read through a scheme pointer: `some none` for the null pointer,
`none` (undefined behaviour) for a pointer into a block of `canon` that is not
the current one. -/
def deref (m : Statics) : scheme_ptr → Option (Option (List Char))
  | .null => some none
  | .caller s => some (some s)
  | .canon b => if b = m.block ∧ b ≠ 0 then some (some m.canon) else none

/-- The function `setColorScheme`: the pointer is stored, the string is not
copied. -/
def setColorScheme (m : Statics) (s : scheme_ptr) : Statics :=
  { m with colorscheme := s }

/-- Whether `resolveColor` evaluates `ISNONDFLT(colorscheme)` on `str` (lines 223
and 233), and so reads through the pointer. -/
def resolveColor_reads_scheme (str : List Char) : Bool :=
  if str = "black".toList then false
  else if str = "white".toList then false
  else if str = "lightgrey".toList then false
  else if str.head? = some '/' then
    match strchr str.tail '/' with
    | some _ => decide (str.tail.head? = some '/')
    | none => false
  else true

/-- The statics after `resolveColor` has resolved `str` with `scheme` as the
string read through `colorscheme`: unchanged for the three literals, else
`canontoken` has run.  `canontoken` is applied to the string `s` of the source,
whose lower-cased copy is `resolveColor scheme str`; both leave the same text
in the buffer and have the same length. -/
def resolveColor_write (m : Statics) (scheme : Option (List Char)) (str : List Char) :
    Statics :=
  if str = "black".toList ∨ str = "white".toList ∨ str = "lightgrey".toList then m
  else (canontoken_mem m (resolveColor scheme str)).1

/-- The function `resolveColor` on the stored statics: `none` when it reads
through a pointer that is no longer valid, else the statics after the call and
the resolved name. -/
def resolveColor_mem (m : Statics) (str : List Char) : Option (Statics × List Char) :=
  match (if resolveColor_reads_scheme str then deref m m.colorscheme else some none) with
  | none => none
  | some scheme => some (resolveColor_write m scheme str, resolveColor scheme str)

/-- Whether `colorxlate` gets as far as `resolveColor` on the text `p` (its input
after the leading blanks): neither the `#` scan nor the scan of three numbers
succeeds. -/
def colorxlate_reaches_name (env : Env) (p : List Char) : Bool :=
  (if p.head? = some '#' then sscanf_hex p 255 else none).isNone &&
  (if p.head? = some '.' ∨ (p.head?.map isdigit) = some true
   then env.sscanf_lf3 (commas_to_blanks p) else none).isNone

/-- The function `colorxlate` on the stored statics: where it resolves a name it
reads the scheme through the pointer and `canontoken` overwrites `canon`; the
return code and the colour are those of `colorxlate` with the string read. -/
def colorxlate_mem (env : Env) (m : Statics) (str : List Char) (color : gvcolor_t)
    (target_type : color_type_t) : Option (Statics × color_rc × gvcolor_t) :=
  let p := skip_blanks str
  let named := colorxlate_reaches_name env p
  match (if named && resolveColor_reads_scheme p then deref m m.colorscheme
         else some none) with
  | none => none
  | some scheme =>
    match colorxlate env ⟨scheme, m.last⟩ str color target_type with
    | none => none
    | some (st, rc, c) =>
      let m1 := if named then resolveColor_write m scheme p else m
      some ({ m1 with last := st.last }, rc, c)

open color_type_t color_rc in
/-- The function `colorCvt` on the stored statics. -/
def colorCvt_mem (env : Env) (m : Statics) (ocolor ncolor : gvcolor_t) :
    Option (Statics × color_rc × gvcolor_t) :=
  if ocolor.type = ncolor.type then
    some (m, COLOR_OK, { ncolor with u := ocolor.u })
  else
    match ocolor.type with
    | HSVA_DOUBLE =>
      match ocolor.u with
      | .HSVA h s v a => colorxlate_mem env m (env.snprintf_hsva h s v a) ncolor ncolor.type
      | _ => none
    | RGBA_BYTE =>
      match ocolor.u with
      | .rgba r g b a => colorxlate_mem env m (snprintf_hex r g b a) ncolor ncolor.type
      | _ => none
    | RGBA_WORD =>
      match ocolor.u with
      | .rrggbbaa r g b a =>
        let rgba := rgba_wordToByte r g b a
        colorxlate_mem env m (snprintf_hex rgba.1 rgba.2.1 rgba.2.2.1 rgba.2.2.2) ncolor
          ncolor.type
      | _ => none
    | RGBA_DOUBLE =>
      match ocolor.u with
      | .RGBA r g b a =>
        let rgba := rgba_dblToByte r g b a
        colorxlate_mem env m (snprintf_hex rgba.1 rgba.2.1 rgba.2.2.1 rgba.2.2.2) ncolor
          ncolor.type
      | _ => none
    | COLOR_STRING =>
      match ocolor.u with
      | .string s => colorxlate_mem env m s ncolor ncolor.type
      | _ => none
    | CMYK_BYTE => some (m, COLOR_UNKNOWN, ncolor)
    | COLOR_INDEX => some (m, COLOR_UNKNOWN, ncolor)
    | other _ => some (m, COLOR_UNKNOWN, ncolor)

/-! ## Sequences of calls to the exported functions -/

/-- A call to one of the exported functions of `colxlate.c`, with its arguments. -/
inductive Call where
  | setColorScheme (s : scheme_ptr)
  | colorxlate (str : List Char) (color : gvcolor_t) (target_type : color_type_t)
  | colorCvt (ocolor ncolor : gvcolor_t)
  | canontoken (str : List Char)

/-- The statics after one call, `none` when the call does not return or its
behaviour is undefined. -/
def step (env : Env) (m : Statics) : Call → Option Statics
  | .setColorScheme s => some (setColorScheme m s)
  | .colorxlate str color target_type =>
    (colorxlate_mem env m str color target_type).map (fun res => res.1)
  | .colorCvt ocolor ncolor => (colorCvt_mem env m ocolor ncolor).map (fun res => res.1)
  | .canontoken str => some (canontoken_mem m str).1

/-- The statics after a sequence of calls, first call first. -/
def run (env : Env) (m : Statics) : List Call → Option Statics
  | [] => some m
  | c :: cs =>
    match step env m c with
    | none => none
    | some m1 => run env m1 cs

/-- The argument of the last `setColorScheme` call in a sequence of calls, `dflt`
when there is none. -/
def lastSetScheme (dflt : scheme_ptr) : List Call → scheme_ptr
  | [] => dflt
  | .setColorScheme s :: cs => lastSetScheme s cs
  | _ :: cs => lastSetScheme dflt cs

/-! ## Data for evaluating the definitions -/

/-- Three entries in the format of `color_lib`, sorted by name. -/
def sample_color_lib : List hsvrgbacolor_t :=
  [ ⟨"black".toList, 0, 0, 0, 0, 0, 0, 255⟩,
    ⟨"red".toList, 0, 255, 255, 255, 0, 0, 255⟩,
    ⟨"white".toList, 0, 0, 255, 255, 255, 255, 255⟩ ]

/-- An environment with the sample table.  The two library calls on `double`s
are stand-ins (no text scans as three numbers, four numbers print as the empty
text); the inputs of the examples do not reach them. -/
def sample_env : Env where
  color_lib := sample_color_lib
  sscanf_lf3 := fun _ => none
  snprintf_hsva := fun _ _ _ _ => []

/-- The sample environment with a scan of three numbers that knows one text,
".5 .25 2" (what the copy loop makes of ".5,.25,2"), with the values 0.5, 0.25
and 2. -/
def sample_env_hsv : Env where
  color_lib := sample_color_lib
  sscanf_lf3 := fun s => if s = ".5 .25 2".toList then some (1 / 2, 1 / 4, 2) else none
  snprintf_hsva := fun _ _ _ _ => []

/-- The sample environment with the two library calls on `double`s for one text:
four zeros print as "0.000 0.000 0.000 0.000" (the format is `%.03f`), and that
text scans as the three numbers 0, 0, 0. -/
def sample_env_zero : Env where
  color_lib := sample_color_lib
  sscanf_lf3 := fun s =>
    if s = "0.000 0.000 0.000 0.000".toList then some (0, 0, 0) else none
  snprintf_hsva := fun h s v a =>
    if h = 0 ∧ s = 0 ∧ v = 0 ∧ a = 0 then "0.000 0.000 0.000 0.000".toList else []

/-! ## Statements of the specification -/

/-- The text `s` is the two-digit hexadecimal form of the byte `n`, its letters in
either case. -/
def isHex2 (n : Nat) (s : List Char) : Prop := canontoken s = fmt_02x n

instance (n : Nat) (s : List Char) : Decidable (isHex2 n s) :=
  inferInstanceAs (Decidable (canontoken s = fmt_02x n))

/-- Clipping of a number to the interval from 0 to 1. -/
def clamp (x : ℚ) : ℚ := max (min x 1) 0

/-- The active scheme starts with "X11", in any letter case. -/
def startsWithX11 (S : List Char) : Prop := canontoken (S.take 3) = "x11".toList

/-- The active scheme is "X11", in any letter case. -/
def isX11 (S : List Char) : Prop := canontoken S = "x11".toList

instance (S : List Char) : Decidable (startsWithX11 S) :=
  inferInstanceAs (Decidable (canontoken (S.take 3) = "x11".toList))

instance (S : List Char) : Decidable (isX11 S) :=
  inferInstanceAs (Decidable (canontoken S = "x11".toList))

/-- A valid colour: the member of the union named by the type, every channel
within the range of its model. -/
def validColor (c : gvcolor_t) : Prop :=
  match c.type, c.u with
  | .RGBA_BYTE, .rgba r g b a => r < 256 ∧ g < 256 ∧ b < 256 ∧ a < 256
  | .CMYK_BYTE, .cmyk c m y k => c < 256 ∧ m < 256 ∧ y < 256 ∧ k < 256
  | .RGBA_WORD, .rrggbbaa r g b a =>
    (0 ≤ r ∧ r ≤ 65535) ∧ (0 ≤ g ∧ g ≤ 65535) ∧ (0 ≤ b ∧ b ≤ 65535) ∧ (0 ≤ a ∧ a ≤ 65535)
  | .HSVA_DOUBLE, .HSVA h s v a =>
    (0 ≤ h ∧ h ≤ 1) ∧ (0 ≤ s ∧ s ≤ 1) ∧ (0 ≤ v ∧ v ≤ 1) ∧ (0 ≤ a ∧ a ≤ 1)
  | .RGBA_DOUBLE, .RGBA r g b a =>
    (0 ≤ r ∧ r ≤ 1) ∧ (0 ≤ g ∧ g ≤ 1) ∧ (0 ≤ b ∧ b ≤ 1) ∧ (0 ≤ a ∧ a ≤ 1)
  | _, _ => False

/-- Two colour values of the same numeric model whose channels differ by at most
`tol`, each channel on the scale of its model. -/
def channelsWithin (tol : ℚ) : color_u → color_u → Prop
  | .rgba r g b a, .rgba r2 g2 b2 a2 =>
    |(r : ℚ) - r2| ≤ tol ∧ |(g : ℚ) - g2| ≤ tol ∧ |(b : ℚ) - b2| ≤ tol ∧ |(a : ℚ) - a2| ≤ tol
  | .cmyk c m y k, .cmyk c2 m2 y2 k2 =>
    |(c : ℚ) - c2| ≤ tol ∧ |(m : ℚ) - m2| ≤ tol ∧ |(y : ℚ) - y2| ≤ tol ∧ |(k : ℚ) - k2| ≤ tol
  | .rrggbbaa r g b a, .rrggbbaa r2 g2 b2 a2 =>
    |(r : ℚ) - r2| ≤ tol ∧ |(g : ℚ) - g2| ≤ tol ∧ |(b : ℚ) - b2| ≤ tol ∧ |(a : ℚ) - a2| ≤ tol
  | .HSVA h s v a, .HSVA h2 s2 v2 a2 =>
    |h - h2| ≤ tol ∧ |s - s2| ≤ tol ∧ |v - v2| ≤ tol ∧ |a - a2| ≤ tol
  | .RGBA r g b a, .RGBA r2 g2 b2 a2 =>
    |r - r2| ≤ tol ∧ |g - g2| ≤ tol ∧ |b - b2| ≤ tol ∧ |a - a2| ≤ tol
  | _, _ => False

/-- The tolerance of a round trip that starts in a colour model, on the scale of
that model: one step of a byte channel, which is 256 for `RGBA_WORD` (range
0..65535) and 1/255 for `RGBA_DOUBLE` (range 0..1); no deviation elsewhere. -/
def roundTripTolerance : color_type_t → ℚ
  | .RGBA_WORD => 256
  | .RGBA_DOUBLE => 1 / 255
  | _ => 0

/-- A colour type that is one of the seven enumerators. -/
def isEnumerator : color_type_t → Bool
  | .other _ => false
  | _ => true

/-- The member of the union that `colorCvt` reads for the type of the colour is
the one stored last. -/
def unionMatchesType (c : gvcolor_t) : Bool :=
  match c.type, c.u with
  | .HSVA_DOUBLE, .HSVA _ _ _ _ => true
  | .RGBA_BYTE, .rgba _ _ _ _ => true
  | .RGBA_WORD, .rrggbbaa _ _ _ _ => true
  | .RGBA_DOUBLE, .RGBA _ _ _ _ => true
  | .COLOR_STRING, .string _ => true
  | .CMYK_BYTE, _ => true
  | .COLOR_INDEX, _ => true
  | .other _, _ => true
  | _, _ => false

/-- A call whose scheme argument, if it has one, does not point into the buffer of
`canontoken`, whose target type is an enumerator and whose source colour holds
the member of the union that its type names. -/
def Call.plain : Call → Bool
  | .setColorScheme (.canon _) => false
  | .setColorScheme _ => true
  | .colorxlate _ _ target_type => isEnumerator target_type
  | .colorCvt ocolor ncolor =>
    decide (ocolor.type = ncolor.type) || (isEnumerator ncolor.type && unionMatchesType ocolor)
  | .canontoken _ => true

/-- Opaque black in each numeric colour model: no light in the additive
models, full black ink in CMYK; alpha, where there is one, at its maximum. -/
def opaqueBlack : color_type_t → Option color_u
  | .HSVA_DOUBLE => some (.HSVA 0 0 0 1)
  | .RGBA_BYTE => some (.rgba 0 0 0 255)
  | .CMYK_BYTE => some (.cmyk 0 0 0 255)
  | .RGBA_WORD => some (.rrggbbaa 0 0 0 65535)
  | .RGBA_DOUBLE => some (.RGBA 0 0 0 1)
  | _ => none

/-! ## Lemmas on the string routines -/

theorem canontoken_cons (c : Char) (p : List Char) :
    canontoken (c :: p) = tolower c :: canontoken p := by
  simp only [canontoken, tolower]
  split <;> simp_all

theorem canontoken_append (a b : List Char) :
    canontoken (a ++ b) = canontoken a ++ canontoken b := by
  induction a with
  | nil => rfl
  | cons c a ih => simp [canontoken_cons, ih]

theorem toNat_sub_ne_zero {a b : Char} (h : a ≠ b) : (a.toNat : Int) - (b.toNat : Int) ≠ 0 := by
  intro h0
  apply h
  have h1 : a.toNat = b.toNat := by omega
  rw [← Char.ofNat_toNat a, ← Char.ofNat_toNat b, h1]

theorem tolower_toNat_ne_zero {c : Char} (h : c.toNat ≠ 0) : (tolower c).toNat ≠ 0 := by
  intro h0
  have h1 : tolower c = Char.ofNat 0 := by rw [← Char.ofNat_toNat (tolower c), h0]
  unfold tolower at h1
  split at h1
  · rename_i hu
    simp only [isupper, Bool.and_eq_true, decide_eq_true_eq] at hu
    obtain ⟨hu1, hu2⟩ := hu
    generalize c.toNat = n at h1 hu1 hu2
    interval_cases n <;> exact absurd h1 (by decide)
  · apply h
    rw [h1]
    decide

/-- When the first string has at least `n` characters, none of them NUL,
`strncasecmp` is zero exactly when the first `n` characters agree up to case. -/
theorem strncasecmp_eq_zero_iff (n : Nat) : ∀ (a b : List Char), n ≤ a.length →
    (∀ c ∈ a, c.toNat ≠ 0) →
    (strncasecmp a b n = 0 ↔ canontoken (a.take n) = canontoken (b.take n)) := by
  induction n with
  | zero => intro a b _ _; simp [strncasecmp]
  | succ n ih =>
    intro a b hlen hnul
    cases a with
    | nil => simp at hlen
    | cons x a =>
      cases b with
      | nil =>
        have hx := tolower_toNat_ne_zero (hnul x (by simp))
        simp only [strncasecmp, List.take_succ_cons, List.take_nil, canontoken_cons]
        constructor
        · intro h; omega
        · intro h; cases h
      | cons y b =>
        simp only [strncasecmp, List.take_succ_cons, canontoken_cons]
        by_cases hxy : tolower x = tolower y
        · simp only [hxy, if_true]
          rw [ih a b (by simpa using hlen) (fun c hc => hnul c (by simp [hc]))]
          simp
        · simp only [hxy, if_false]
          constructor
          · intro h; exact absurd h (toNat_sub_ne_zero hxy)
          · intro h; simp at h; exact absurd h.1 hxy

theorem strncasecmp_dflt3 (S : List Char) :
    strncasecmp DFLT_SCHEME S (DFLT_SCHEME_LEN - 1) = 0 ↔ startsWithX11 S := by
  have h := strncasecmp_eq_zero_iff 3 DFLT_SCHEME S (by decide) (by decide)
  have e : canontoken (List.take 3 DFLT_SCHEME) = "x11".toList := by decide
  rw [e] at h
  show strncasecmp DFLT_SCHEME S 3 = 0 ↔ canontoken (S.take 3) = "x11".toList
  rw [h]
  exact eq_comm

theorem strncasecmp_dflt4 (s : List Char) :
    strncasecmp DFLT_SCHEME s DFLT_SCHEME_LEN = 0 ↔ canontoken (s.take 4) = "x11/".toList := by
  have h := strncasecmp_eq_zero_iff 4 DFLT_SCHEME s (by decide) (by decide)
  have e : canontoken (List.take 4 DFLT_SCHEME) = "x11/".toList := by decide
  rw [e] at h
  show strncasecmp DFLT_SCHEME s 4 = 0 ↔ _
  rw [h]
  exact eq_comm

theorem ISNONDFLT_some (S : List Char) :
    ISNONDFLT (some S) = true ↔ S ≠ [] ∧ ¬ startsWithX11 S := by
  simp [ISNONDFLT, strncasecmp_dflt3]

theorem ISNONDFLT_of_isX11 (S : List Char) (h : isX11 S) : ISNONDFLT (some S) = false := by
  have h1 : startsWithX11 S := by
    unfold isX11 at h
    unfold startsWithX11
    have hl : (canontoken S).length = 3 := by rw [h]; rfl
    have hlen : ∀ l : List Char, (canontoken l).length = l.length := by
      intro l; induction l with
      | nil => rfl
      | cons c l ih => simp [canontoken_cons, ih]
    rw [hlen] at hl
    rw [List.take_of_length_le (by omega), h]
  cases hh : ISNONDFLT (some S) with
  | false => rfl
  | true => exact absurd h1 ((ISNONDFLT_some S).1 hh).2

theorem strchr_none_of_not_mem (s : List Char) (ch : Char) (h : ch ∉ s) :
    strchr s ch = none := by
  induction s with
  | nil => rfl
  | cons c s ih =>
    simp only [List.mem_cons, not_or] at h
    simp [strchr, Ne.symm h.1, ih h.2]

theorem strchr_isSome_of_mem (s : List Char) (ch : Char) (h : ch ∈ s) :
    ∃ ss, strchr s ch = some ss := by
  induction s with
  | nil => simp at h
  | cons c s ih =>
    by_cases hc : c = ch
    · exact ⟨c :: s, by simp [strchr, hc]⟩
    · have hm : ch ∈ s := by
        rcases List.mem_cons.1 h with h1 | h1
        · exact absurd h1.symm hc
        · exact h1
      obtain ⟨ss, hss⟩ := ih hm
      exact ⟨ss, by simp [strchr, hc, hss]⟩

/-! ## Name resolution: the cases of resolveColor -/

/-- C1: whatever the active colour scheme is (unset, empty, "X11" or any other
string), `resolveColor` maps each of the three literal names "black", "white"
and "lightgrey" to itself. -/
theorem resolveColor_literal (colorscheme : Option (List Char)) :
    resolveColor colorscheme "black".toList = "black".toList ∧
    resolveColor colorscheme "white".toList = "white".toList ∧
    resolveColor colorscheme "lightgrey".toList = "lightgrey".toList := by
  refine ⟨?_, ?_, ?_⟩ <;> simp [resolveColor]

/-- C2: for a name that does not begin with '/' and is none of the three
literals, `resolveColor` returns the lower-cased "/S/name" when the active scheme
`S` is non-empty and does not start with "X11" (any letter case), and the
lower-cased name when the scheme is unset or empty. -/
theorem resolveColor_unprefixed (S name : List Char)
    (hslash : name.head? ≠ some '/')
    (hblack : name ≠ "black".toList) (hwhite : name ≠ "white".toList)
    (hgrey : name ≠ "lightgrey".toList) :
    ((S ≠ [] ∧ ¬ startsWithX11 S) →
      resolveColor (some S) name = canontoken ('/' :: (S ++ '/' :: name))) ∧
    resolveColor none name = canontoken name ∧
    resolveColor (some []) name = canontoken name := by
  refine ⟨?_, ?_, ?_⟩
  · intro h
    have hn := (ISNONDFLT_some S).2 h
    unfold resolveColor
    rw [if_neg hblack, if_neg hwhite, if_neg hgrey]
    simp [hslash, hn, fullColor]
  · unfold resolveColor
    rw [if_neg hblack, if_neg hwhite, if_neg hgrey]
    simp [hslash, ISNONDFLT]
  · unfold resolveColor
    rw [if_neg hblack, if_neg hwhite, if_neg hgrey]
    simp [hslash, ISNONDFLT]

/-- Witness for C2: the scheme "Blues9" and the name "Red". -/
theorem resolveColor_unprefixed_witness :
    ("Red".toList.head? ≠ some '/' ∧ "Blues9".toList ≠ [] ∧ ¬ startsWithX11 "Blues9".toList) ∧
    resolveColor (some "Blues9".toList) "Red".toList = "/blues9/red".toList ∧
    resolveColor none "Red".toList = "red".toList :=
  ⟨by decide,
   ((resolveColor_unprefixed "Blues9".toList "Red".toList (by decide) (by decide) (by decide)
      (by decide)).1 (by decide)).trans (by decide),
   ((resolveColor_unprefixed "Blues9".toList "Red".toList (by decide) (by decide) (by decide)
      (by decide)).2.1).trans (by decide)⟩

theorem canontoken_eq_map (s : List Char) : canontoken s = s.map tolower := by
  induction s with
  | nil => rfl
  | cons c s ih => simp [canontoken_cons, ih]

theorem slash_not_mem_of_isX11 (p : List Char) (h : isX11 p) : '/' ∉ p := by
  intro hm
  have h1 : tolower '/' ∈ canontoken p := by
    rw [canontoken_eq_map]; exact List.mem_map_of_mem _ hm
  rw [show canontoken p = "x11".toList from h] at h1
  revert h1
  decide

theorem strchr_append_of_not_mem (p y : List Char) (ch : Char) (h : ch ∉ p) :
    strchr (p ++ ch :: y) ch = some (ch :: y) := by
  induction p with
  | nil => simp [strchr]
  | cons c p ih =>
    simp only [List.mem_cons, not_or] at h
    simp [strchr, Ne.symm h.1, ih h.2]

/-- C3: for a string made of one '/' and a remainder without '/', `resolveColor`
returns the lower-cased remainder, whatever the active scheme is. -/
theorem resolveColor_single_slash (colorscheme : Option (List Char)) (rest : List Char)
    (h : '/' ∉ rest) :
    resolveColor colorscheme ('/' :: rest) = canontoken rest := by
  unfold resolveColor
  rw [if_neg (by simp), if_neg (by simp), if_neg (by simp)]
  simp [strchr_none_of_not_mem rest '/' h]

/-- Witness for C3: "/Red" under the scheme "Blues9". -/
theorem resolveColor_single_slash_witness :
    '/' ∉ "Red".toList ∧
    resolveColor (some "Blues9".toList) ('/' :: "Red".toList) = canontoken "Red".toList :=
  ⟨by decide, resolveColor_single_slash (some "Blues9".toList) "Red".toList (by decide)⟩

/-- C4: for a string "//yyy", `resolveColor` returns the lower-cased "/S/yyy" when
the active scheme `S` is non-empty and does not start with "X11" (any letter
case), and the lower-cased `yyy` when the scheme is unset, empty or "X11". -/
theorem resolveColor_double_slash (S yyy : List Char) :
    ((S ≠ [] ∧ ¬ startsWithX11 S) →
      resolveColor (some S) ('/' :: '/' :: yyy) = canontoken ('/' :: (S ++ '/' :: yyy))) ∧
    resolveColor none ('/' :: '/' :: yyy) = canontoken yyy ∧
    resolveColor (some []) ('/' :: '/' :: yyy) = canontoken yyy ∧
    (isX11 S → resolveColor (some S) ('/' :: '/' :: yyy) = canontoken yyy) := by
  refine ⟨?_, ?_, ?_, ?_⟩
  · intro h
    have hn := (ISNONDFLT_some S).2 h
    unfold resolveColor
    rw [if_neg (by simp), if_neg (by simp), if_neg (by simp)]
    simp [strchr, hn, fullColor]
  · unfold resolveColor
    rw [if_neg (by simp), if_neg (by simp), if_neg (by simp)]
    simp [strchr, ISNONDFLT]
  · unfold resolveColor
    rw [if_neg (by simp), if_neg (by simp), if_neg (by simp)]
    simp [strchr, ISNONDFLT]
  · intro h
    have hn := ISNONDFLT_of_isX11 S h
    unfold resolveColor
    rw [if_neg (by simp), if_neg (by simp), if_neg (by simp)]
    simp [strchr, hn]

/-- Witness for C4: "//Red" under the scheme "Blues9" and under the scheme "x11". -/
theorem resolveColor_double_slash_witness :
    ("Blues9".toList ≠ [] ∧ ¬ startsWithX11 "Blues9".toList ∧ isX11 "x11".toList) ∧
    resolveColor (some "Blues9".toList) ('/' :: '/' :: "Red".toList) = "/blues9/red".toList ∧
    resolveColor (some "x11".toList) ('/' :: '/' :: "Red".toList) = "red".toList :=
  ⟨by decide,
   ((resolveColor_double_slash "Blues9".toList "Red".toList).1 (by decide)).trans (by decide),
   ((resolveColor_double_slash "x11".toList "Red".toList).2.2.2 (by decide)).trans (by decide)⟩

theorem canontoken_of_no_upper (s : List Char) (h : ∀ c ∈ s, isupper c = false) :
    canontoken s = s := by
  induction s with
  | nil => rfl
  | cons c s ih =>
    have hc : isupper c = false := h c (by simp)
    simp [canontoken, hc, ih (fun d hd => h d (by simp [hd]))]

/-- C5 (as stated, refuted): "/X11/red" and "/Blues9/Red" both begin with exactly
one '/' and contain a further '/', yet `resolveColor` does not return them
unchanged: the first loses its "/X11/" prefix, the second is lower-cased. -/
theorem resolveColor_two_slashes_counterexample :
    ("/X11/red".toList.head? = some '/' ∧ "/X11/red".toList.tail.head? ≠ some '/' ∧
      '/' ∈ "/X11/red".toList.tail ∧
      resolveColor none "/X11/red".toList = "red".toList ∧
      resolveColor none "/X11/red".toList ≠ "/X11/red".toList) ∧
    ("/Blues9/Red".toList.head? = some '/' ∧ "/Blues9/Red".toList.tail.head? ≠ some '/' ∧
      '/' ∈ "/Blues9/Red".toList.tail ∧
      resolveColor none "/Blues9/Red".toList = "/blues9/red".toList ∧
      resolveColor none "/Blues9/Red".toList ≠ "/Blues9/Red".toList) := by
  decide

/-- C5 (amended): for a string that begins with exactly one '/', contains a
further '/' and whose part after the first '/' does not begin with "X11/" (any
letter case), `resolveColor` returns the lower-cased input, for every state of
the active scheme; that is the input itself when it has no upper-case letter. -/
theorem resolveColor_two_slashes (colorscheme : Option (List Char)) (rest : List Char)
    (hsecond : rest.head? ≠ some '/') (hfurther : '/' ∈ rest)
    (hdflt : canontoken (rest.take 4) ≠ "x11/".toList) :
    resolveColor colorscheme ('/' :: rest) = canontoken ('/' :: rest) ∧
    ((∀ c ∈ rest, isupper c = false) → resolveColor colorscheme ('/' :: rest) = '/' :: rest) := by
  have key : resolveColor colorscheme ('/' :: rest) = canontoken ('/' :: rest) := by
    obtain ⟨ss, hss⟩ := strchr_isSome_of_mem rest '/' hfurther
    have hcmp : strncasecmp DFLT_SCHEME rest DFLT_SCHEME_LEN ≠ 0 :=
      fun h0 => hdflt ((strncasecmp_dflt4 rest).1 h0)
    unfold resolveColor
    rw [if_neg (by simp), if_neg (by simp), if_neg (by simp)]
    simp [hss, hsecond, hcmp]
  refine ⟨key, fun hno => ?_⟩
  rw [key]
  apply canontoken_of_no_upper
  intro c hc
  rcases List.mem_cons.1 hc with h1 | h1
  · rw [h1]; decide
  · exact hno c h1

/-- Witness for C5 (amended): "/Blues9/Red" and "/blues9/red" under the scheme
"Accent3". -/
theorem resolveColor_two_slashes_witness :
    ("Blues9/Red".toList.head? ≠ some '/' ∧ '/' ∈ "Blues9/Red".toList ∧
      canontoken ("Blues9/Red".toList.take 4) ≠ "x11/".toList) ∧
    resolveColor (some "Accent3".toList) ('/' :: "Blues9/Red".toList) = "/blues9/red".toList ∧
    resolveColor (some "Accent3".toList) ('/' :: "blues9/red".toList)
      = '/' :: "blues9/red".toList :=
  ⟨by decide,
   ((resolveColor_two_slashes (some "Accent3".toList) "Blues9/Red".toList (by decide)
      (by decide) (by decide)).1).trans (by decide),
   (resolveColor_two_slashes (some "Accent3".toList) "blues9/red".toList (by decide)
      (by decide) (by decide)).2 (by decide)⟩

/-- C6: for every `yyy`, `resolveColor` maps "/X11/yyy", with "X11" written in any
letter case, to the lower-cased `yyy`, whatever the active scheme is. -/
theorem resolveColor_explicit_X11 (colorscheme : Option (List Char)) (x11 yyy : List Char)
    (h : isX11 x11) :
    resolveColor colorscheme ('/' :: (x11 ++ '/' :: yyy)) = canontoken yyy := by
  have hnot := slash_not_mem_of_isX11 x11 h
  have hchr := strchr_append_of_not_mem x11 yyy '/' hnot
  have hlen : x11.length = 3 := by
    have := congrArg List.length (show canontoken x11 = "x11".toList from h)
    rw [canontoken_eq_map, List.length_map] at this
    exact this
  have hhead : (x11 ++ '/' :: yyy).head? ≠ some '/' := by
    cases x11 with
    | nil => simp at hlen
    | cons c t =>
      simp only [List.cons_append, List.head?_cons]
      intro hc
      exact hnot (by simp [Option.some.inj hc])
  have hcmp : strncasecmp DFLT_SCHEME (x11 ++ '/' :: yyy) DFLT_SCHEME_LEN = 0 := by
    rw [strncasecmp_dflt4]
    have ht : (x11 ++ '/' :: yyy).take 4 = x11 ++ ['/'] := by
      rw [List.take_append_eq_append_take, List.take_of_length_le (by omega), hlen]
      rfl
    rw [ht, canontoken_append, show canontoken x11 = "x11".toList from h]
    decide
  unfold resolveColor
  rw [if_neg (by simp), if_neg (by simp), if_neg (by simp)]
  simp only [List.head?_cons, List.tail_cons, hchr, if_true, if_neg hhead, hcmp, ne_eq,
    not_true_eq_false, if_false]

/-- Witness for C6: "/x11/Red" under the scheme "Blues9". -/
theorem resolveColor_explicit_X11_witness :
    isX11 "x11".toList ∧
    resolveColor (some "Blues9".toList) ('/' :: ("x11".toList ++ '/' :: "Red".toList))
      = canontoken "Red".toList :=
  ⟨by decide, resolveColor_explicit_X11 (some "Blues9".toList) "x11".toList "Red".toList
    (by decide)⟩

/-- C7 (evaluation at the failing input): the scheme "X11foo" is not "X11", yet
`resolveColor` treats it as the default and resolves "x" to "x" rather than to
the lower-cased "/X11foo/x"; the explicit prefix "/X11foo/" is not taken for
the default. -/
theorem resolveColor_scheme_X11_prefix :
    "X11foo".toList ≠ [] ∧ ¬ isX11 "X11foo".toList ∧
    resolveColor (some "X11foo".toList) "x".toList = "x".toList ∧
    canontoken ('/' :: ("X11foo".toList ++ '/' :: "x".toList)) = "/x11foo/x".toList ∧
    resolveColor none "/X11foo/x".toList = "/x11foo/x".toList := by
  decide

/-! ## The colour table search -/

theorem strcasecmp_self (a : List Char) : strcasecmp a a = 0 := by
  induction a with
  | nil => rfl
  | cons c a ih => simp [strcasecmp, ih]

/-- The iteration bound of `bsearch` is never the reason for its result: any two
bounds that are at least the width of the range give the same result. -/
theorem bsearchAux_fuel (key : hsvrgbacolor_t) (base : List hsvrgbacolor_t)
    (compar : hsvrgbacolor_t → hsvrgbacolor_t → Int) (f : Nat) :
    ∀ (g lo hi : Nat), hi - lo ≤ f → hi - lo ≤ g →
      bsearchAux key base compar f lo hi = bsearchAux key base compar g lo hi := by
  induction f with
  | zero =>
    intro g lo hi hf _
    cases g with
    | zero => rfl
    | succ g => simp [bsearchAux, show ¬ lo < hi by omega]
  | succ f ih =>
    intro g lo hi hf hg
    cases g with
    | zero => simp [bsearchAux, show ¬ lo < hi by omega]
    | succ g =>
      simp only [bsearchAux]
      split
      · rename_i hlt
        cases hm : base[(lo + hi) / 2]? with
        | none => rfl
        | some e =>
          simp only []
          rw [ih g lo ((lo + hi) / 2) (by omega) (by omega),
            ih g ((lo + hi) / 2 + 1) hi (by omega) (by omega)]
      · rfl

theorem bsearchAux_none_of_absent (key : hsvrgbacolor_t) (base : List hsvrgbacolor_t)
    (compar : hsvrgbacolor_t → hsvrgbacolor_t → Int)
    (h : ∀ e ∈ base, compar key e ≠ 0) (f : Nat) :
    ∀ lo hi : Nat, bsearchAux key base compar f lo hi = none := by
  induction f with
  | zero => intro lo hi; rfl
  | succ f ih =>
    intro lo hi
    simp only [bsearchAux]
    split
    · cases hm : base[(lo + hi) / 2]? with
      | none => rfl
      | some e =>
        have hne := h e (List.getElem?_mem hm)
        simp only [ih]
        split
        · rfl
        · split
          · rfl
          · omega
    · rfl

theorem bsearch_none_of_absent (key : hsvrgbacolor_t) (base : List hsvrgbacolor_t)
    (compar : hsvrgbacolor_t → hsvrgbacolor_t → Int)
    (h : ∀ e ∈ base, compar key e ≠ 0) : bsearch key base compar = none :=
  bsearchAux_none_of_absent key base compar h _ _ _

/-- A result of `bsearch` is an entry of the table that compares equal to the key. -/
theorem bsearchAux_some (key : hsvrgbacolor_t) (base : List hsvrgbacolor_t)
    (compar : hsvrgbacolor_t → hsvrgbacolor_t → Int) (f : Nat) :
    ∀ (lo hi : Nat) (e : hsvrgbacolor_t), bsearchAux key base compar f lo hi = some e →
      e ∈ base ∧ compar key e = 0 := by
  induction f with
  | zero => intro lo hi e h; simp [bsearchAux] at h
  | succ f ih =>
    intro lo hi e h
    simp only [bsearchAux] at h
    split at h
    · cases hm : base[(lo + hi) / 2]? with
      | none => rw [hm] at h; simp at h
      | some m =>
        rw [hm] at h
        simp only [] at h
        split at h
        · exact ih _ _ _ h
        · split at h
          · exact ih _ _ _ h
          · cases h
            exact ⟨List.getElem?_mem hm, by omega⟩
    · cases h

/-! ## colorxlate on a name that is not a colour -/

/-- When the `#` scan and the scan of three numbers both fail and no entry of the
table compares equal to the resolved name, `colorxlate` takes its last branch. -/
theorem colorxlate_fallback (env : Env) (st : State) (str : List Char) (color : gvcolor_t)
    (target_type : color_type_t)
    (hlast : ∀ e, st.last = some e → e ∈ env.color_lib)
    (hhex : sscanf_hex (skip_blanks str) 255 = none)
    (hhsv : ((skip_blanks str).head? = some '.' ∨
        ((skip_blanks str).head?.map isdigit) = some true) →
      env.sscanf_lf3 (commas_to_blanks (skip_blanks str)) = none)
    (habsent : ∀ e ∈ env.color_lib,
      strcasecmp (resolveColor st.colorscheme (skip_blanks str)) e.name ≠ 0) :
    colorxlate env st str color target_type =
      (colorxlate_unknown color.u target_type).map
        (fun u => (({ st with last := none } : State), color_rc.COLOR_UNKNOWN,
          (⟨u, target_type⟩ : gvcolor_t))) := by
  have h1 : (if (skip_blanks str).head? = some '#' then sscanf_hex (skip_blanks str) 255
      else none) = none := by
    split
    · exact hhex
    · rfl
  have h2 : (if (skip_blanks str).head? = some '.' ∨
        ((skip_blanks str).head?.map isdigit) = some true
      then env.sscanf_lf3 (commas_to_blanks (skip_blanks str)) else none) = none := by
    split
    · rename_i hc; exact hhsv hc
    · rfl
  have hb : bsearch ⟨resolveColor st.colorscheme (skip_blanks str), 0, 0, 0, 0, 0, 0, 0⟩
      env.color_lib colorcmpf = none :=
    bsearch_none_of_absent _ _ _ (fun e he => habsent e he)
  have h3 : (if st.last = none ∨ st.last.map (fun e => e.name)
        ≠ some (resolveColor st.colorscheme (skip_blanks str)) then
      bsearch ⟨resolveColor st.colorscheme (skip_blanks str), 0, 0, 0, 0, 0, 0, 0⟩
        env.color_lib colorcmpf
      else st.last) = none := by
    split
    · exact hb
    · rename_i hc
      simp only [not_or, ne_eq, not_not] at hc
      cases hl : st.last with
      | none => rfl
      | some e =>
        exfalso
        have hn : e.name = resolveColor st.colorscheme (skip_blanks str) := by
          have := hc.2
          rw [hl] at this
          simpa using this
        have := habsent e (hlast e hl)
        rw [← hn] at this
        exact this (strcasecmp_self _)
  unfold colorxlate
  simp only [h1, h2, h3]

open color_type_t color_rc in
/-- C8 (the code at the failing target type): for an input that is neither a
parsable `#` colour nor a parsable number triple and whose resolved name no table
entry matches, `colorxlate` returns `COLOR_UNKNOWN` for each numeric target type
and does not abort; the value written is opaque black for `HSVA_DOUBLE`,
`RGBA_BYTE`, `RGBA_WORD` and `RGBA_DOUBLE`, but for `CMYK_BYTE` it is (0, 0, 0, 0),
which is not CMYK black (0, 0, 0, 255), the value that `colorxlate` itself
writes for "#000000". -/
theorem colorxlate_unknown_value (env : Env) (st : State) (str : List Char)
    (color : gvcolor_t) (target_type : color_type_t)
    (htarget : target_type ∈ [HSVA_DOUBLE, RGBA_BYTE, CMYK_BYTE, RGBA_WORD, RGBA_DOUBLE])
    (hlast : ∀ e, st.last = some e → e ∈ env.color_lib)
    (hhex : sscanf_hex (skip_blanks str) 255 = none)
    (hhsv : ((skip_blanks str).head? = some '.' ∨
        ((skip_blanks str).head?.map isdigit) = some true) →
      env.sscanf_lf3 (commas_to_blanks (skip_blanks str)) = none)
    (habsent : ∀ e ∈ env.color_lib,
      strcasecmp (resolveColor st.colorscheme (skip_blanks str)) e.name ≠ 0) :
    (target_type ≠ CMYK_BYTE →
      ∃ u, opaqueBlack target_type = some u ∧
        colorxlate env st str color target_type
          = some (⟨st.colorscheme, none⟩, COLOR_UNKNOWN, ⟨u, target_type⟩)) ∧
    (target_type = CMYK_BYTE →
      colorxlate env st str color target_type
          = some (⟨st.colorscheme, none⟩, COLOR_UNKNOWN, ⟨.cmyk 0 0 0 0, CMYK_BYTE⟩) ∧
      opaqueBlack CMYK_BYTE = some (.cmyk 0 0 0 255) ∧
      colorxlate env st "#000000".toList color CMYK_BYTE
          = some (st, COLOR_OK, ⟨.cmyk 0 0 0 255, CMYK_BYTE⟩)) := by
  have hf := colorxlate_fallback env st str color target_type hlast hhex hhsv habsent
  simp only [List.mem_cons, List.mem_singleton, List.not_mem_nil, or_false] at htarget
  refine ⟨fun hne => ?_, fun heq => ?_⟩
  · rcases htarget with h | h | h | h | h
    · subst h; exact ⟨_, rfl, by rw [hf]; rfl⟩
    · subst h; exact ⟨_, rfl, by rw [hf]; rfl⟩
    · exact absurd h hne
    · subst h; exact ⟨_, rfl, by rw [hf]; rfl⟩
    · subst h; exact ⟨_, rfl, by rw [hf]; rfl⟩
  · subst heq
    refine ⟨by rw [hf]; rfl, rfl, ?_⟩
    have hs : sscanf_hex "#000000".toList 255 = some (0, 0, 0, 255) := by decide
    have hsk : skip_blanks "#000000".toList = "#000000".toList := by decide
    unfold colorxlate
    simp only [hsk]
    rw [if_pos (by decide), hs]
    simp [colorxlate_hex, rgb2cmyk, dtoi, toUChar]

/-- Witness for C8: the name "nosuchcolor" with the sample table and target
`CMYK_BYTE`. -/
theorem colorxlate_unknown_value_witness :
    (sscanf_hex (skip_blanks "nosuchcolor".toList) 255 = none ∧
      ∀ e ∈ sample_env.color_lib,
        strcasecmp (resolveColor State.init.colorscheme (skip_blanks "nosuchcolor".toList))
          e.name ≠ 0) ∧
    colorxlate sample_env State.init "nosuchcolor".toList ⟨.index 0, .COLOR_INDEX⟩ .CMYK_BYTE
      = some (⟨none, none⟩, .COLOR_UNKNOWN, ⟨.cmyk 0 0 0 0, .CMYK_BYTE⟩) :=
  ⟨by decide,
   ((colorxlate_unknown_value sample_env State.init "nosuchcolor".toList
      ⟨.index 0, .COLOR_INDEX⟩ .CMYK_BYTE (by decide) (fun e h => by cases h) (by decide)
      (fun _ => rfl) (by decide)).2 rfl).1⟩

/-! ## Hexadecimal text of bytes: printing then scanning -/

theorem hexval_range {c : Char} {v : Nat} (h : hexval c = some v) :
    (48 ≤ c.toNat ∧ c.toNat ≤ 57) ∨ (97 ≤ c.toNat ∧ c.toNat ≤ 102) ∨
      (65 ≤ c.toNat ∧ c.toNat ≤ 70) := by
  unfold hexval at h
  split at h
  · rename_i hd
    simp only [isdigit, Bool.and_eq_true, decide_eq_true_eq] at hd
    exact Or.inl hd
  · split at h
    · rename_i hd; exact Or.inr (Or.inl hd)
    · split at h
      · rename_i hd; exact Or.inr (Or.inr hd)
      · cases h

theorem scan_2x_two_digits (d1 d2 : Char) (rest : List Char) (v1 v2 : Nat)
    (h1 : hexval d1 = some v1) (h2 : hexval d2 = some v2) :
    scan_2x (d1 :: d2 :: rest) = some (v1 * 16 + v2, rest) := by
  have r1 := hexval_range h1
  have r2 := hexval_range h2
  have hsp : isspace d1 = false := by
    simp only [isspace, Bool.or_eq_false_iff, decide_eq_false_iff_not, Bool.and_eq_false_iff]
    omega
  have hplus : d1 ≠ '+' := by
    intro h; rw [h] at r1; revert r1; decide
  have hminus : d1 ≠ '-' := by
    intro h; rw [h] at r1; revert r1; decide
  have hx : d2 ≠ 'x' := by
    intro h; rw [h] at r2; revert r2; decide
  have hX : d2 ≠ 'X' := by
    intro h; rw [h] at r2; revert r2; decide
  simp [scan_2x, skipws, hsp, hplus, hminus, h1, h2, hx, hX]

set_option maxRecDepth 100000 in
theorem fmt_02x_digits : ∀ n < 256, (fmt_02x n).map hexval = [some (n / 16), some (n % 16)] := by
  decide

theorem scan_2x_fmt_02x (n : Nat) (h : n < 256) (rest : List Char) :
    scan_2x (fmt_02x n ++ rest) = some (n, rest) := by
  have hd := fmt_02x_digits n h
  rcases hf : fmt_02x n with _ | ⟨d1, _ | ⟨d2, _ | ⟨d3, t⟩⟩⟩
  · rw [hf] at hd; simp at hd
  · rw [hf] at hd; simp at hd
  · rw [hf] at hd
    simp only [List.map_cons, List.map_nil, List.cons.injEq, and_true] at hd
    have := scan_2x_two_digits d1 d2 rest _ _ hd.1 hd.2
    simp only [List.cons_append, List.nil_append]
    rw [this]
    congr 2
    omega
  · rw [hf] at hd; simp at hd

theorem sscanf_hex_snprintf_hex (r g b a a0 : Nat) (hr : r < 256) (hg : g < 256)
    (hb : b < 256) (ha : a < 256) :
    sscanf_hex (snprintf_hex r g b a) a0 = some (r, g, b, a) := by
  have h4 : scan_2x (fmt_02x a) = some (a, []) := by
    simpa using scan_2x_fmt_02x a ha []
  simp [sscanf_hex, snprintf_hex, scan_2x_fmt_02x r hr, scan_2x_fmt_02x g hg,
    scan_2x_fmt_02x b hb, h4]

/-- On the text that `colorCvt` prints for four bytes, `colorxlate` takes its `#`
branch with exactly these bytes. -/
theorem colorxlate_snprintf_hex (env : Env) (st : State) (r g b a : Nat) (color : gvcolor_t)
    (target_type : color_type_t) (hr : r < 256) (hg : g < 256) (hb : b < 256) (ha : a < 256) :
    colorxlate env st (snprintf_hex r g b a) color target_type =
      (colorxlate_hex r g b a color.u target_type).map
        (fun u => (st, color_rc.COLOR_OK, (⟨u, target_type⟩ : gvcolor_t))) := by
  have hsk : skip_blanks (snprintf_hex r g b a) = snprintf_hex r g b a := by
    simp [snprintf_hex, skip_blanks]
  have hhd : (snprintf_hex r g b a).head? = some '#' := rfl
  unfold colorxlate
  simp only [hsk, hhd, if_true, sscanf_hex_snprintf_hex r g b a 255 hr hg hb ha]

/-! ## colorCvt between the byte and the word model -/

theorem toInt32_of_range (x : Int) (h0 : -2147483648 ≤ x) (h1 : x < 2147483648) :
    toInt32 x = x := by
  unfold toInt32
  rw [Int.emod_eq_of_lt (by omega) (by omega)]
  omega

theorem word_of_byte (r : Nat) (h : r < 256) :
    toInt32 ((r * 65535 % 4294967296 / 255 : Nat) : Int) = 257 * (r : Int) := by
  have h1 : r * 65535 % 4294967296 = r * 65535 := Nat.mod_eq_of_lt (by omega)
  have h2 : r * 65535 / 255 = r * 257 := by omega
  rw [h1, h2, toInt32_of_range _ (by omega) (by omega)]
  omega

theorem wordToByte_of_valid (w : Int) (h0 : 0 ≤ w) (h1 : w ≤ 65535) :
    wordToByte w = (w / 257).toNat := by
  unfold wordToByte toUChar
  rw [toInt32_of_range _ (by omega) (by omega), Int.tdiv_eq_ediv (by omega) (by omega)]
  congr 1
  omega

theorem wordToByte_lt (w : Int) (h0 : 0 ≤ w) (h1 : w ≤ 65535) : wordToByte w < 256 := by
  rw [wordToByte_of_valid w h0 h1]
  omega

open color_type_t color_rc in
theorem colorCvt_byte_to_word (env : Env) (st : State) (r g b a : Nat) (d : color_u)
    (hr : r < 256) (hg : g < 256) (hb : b < 256) (ha : a < 256) :
    colorCvt env st ⟨.rgba r g b a, RGBA_BYTE⟩ ⟨d, RGBA_WORD⟩ =
      some (st, COLOR_OK, ⟨.rrggbbaa (257 * (r : Int)) (257 * (g : Int)) (257 * (b : Int))
        (257 * (a : Int)), RGBA_WORD⟩) := by
  unfold colorCvt
  simp only [reduceCtorEq, if_false]
  rw [colorxlate_snprintf_hex env st r g b a _ _ hr hg hb ha]
  simp only [colorxlate_hex, Option.map_some', word_of_byte r hr, word_of_byte g hg,
    word_of_byte b hb, word_of_byte a ha]

open color_type_t color_rc in
theorem colorCvt_word_to_byte (env : Env) (st : State) (r g b a : Int) (d : color_u)
    (hr : 0 ≤ r ∧ r ≤ 65535) (hg : 0 ≤ g ∧ g ≤ 65535) (hb : 0 ≤ b ∧ b ≤ 65535)
    (ha : 0 ≤ a ∧ a ≤ 65535) :
    colorCvt env st ⟨.rrggbbaa r g b a, RGBA_WORD⟩ ⟨d, RGBA_BYTE⟩ =
      some (st, COLOR_OK, ⟨.rgba (r / 257).toNat (g / 257).toNat (b / 257).toNat
        (a / 257).toNat, RGBA_BYTE⟩) := by
  have lr := wordToByte_lt r hr.1 hr.2
  have lg := wordToByte_lt g hg.1 hg.2
  have lb := wordToByte_lt b hb.1 hb.2
  have la := wordToByte_lt a ha.1 ha.2
  unfold colorCvt
  simp only [reduceCtorEq, if_false, rgba_wordToByte]
  rw [colorxlate_snprintf_hex env st _ _ _ _ _ _ lr lg lb la]
  simp only [colorxlate_hex, Option.map_some', Nat.mod_eq_of_lt lr, Nat.mod_eq_of_lt lg,
    Nat.mod_eq_of_lt lb, Nat.mod_eq_of_lt la]
  rw [wordToByte_of_valid r hr.1 hr.2, wordToByte_of_valid g hg.1 hg.2,
    wordToByte_of_valid b hb.1 hb.2, wordToByte_of_valid a ha.1 ha.2]

/-! ## colorCvt from each of the byte, word and double models -/

theorem dblToByte_spec (x : ℚ) (h0 : 0 ≤ x) (h1 : x ≤ 1) :
    dblToByte x < 256 ∧ ((dblToByte x : Nat) : ℚ) ≤ x * 255 ∧
      x * 255 < ((dblToByte x : Nat) : ℚ) + 1 := by
  have hx : (0 : ℚ) ≤ x * 255 := by positivity
  have f0 : 0 ≤ ⌊x * 255⌋ := Int.floor_nonneg.2 hx
  have f1 : ⌊x * 255⌋ ≤ 255 := by
    have : ⌊x * 255⌋ ≤ ⌊(255 : ℚ)⌋ := Int.floor_le_floor (by linarith)
    simpa using this
  have e : dblToByte x = ⌊x * 255⌋.toNat := by
    unfold dblToByte dtoi toUChar
    rw [if_pos hx]
    congr 1
    omega
  have ec : ((dblToByte x : Nat) : ℚ) = ((⌊x * 255⌋ : Int) : ℚ) := by
    rw [e]
    have : ((⌊x * 255⌋.toNat : Nat) : Int) = ⌊x * 255⌋ := Int.toNat_of_nonneg f0
    exact_mod_cast congrArg (fun z : Int => (z : ℚ)) this
  refine ⟨by rw [e]; omega, ?_, ?_⟩
  · rw [ec]; exact Int.floor_le _
  · rw [ec]; exact Int.lt_floor_add_one _

theorem dblToByte_of_byte (r : Nat) (h : r < 256) : dblToByte ((r : ℚ) / 255) = r := by
  have hx : (0 : ℚ) ≤ (r : ℚ) / 255 * 255 := by positivity
  unfold dblToByte dtoi toUChar
  rw [if_pos hx, div_mul_cancel₀ _ (by norm_num : (255 : ℚ) ≠ 0), Int.floor_natCast]
  omega

theorem dblToByte_close (x : ℚ) (h0 : 0 ≤ x) (h1 : x ≤ 1) :
    |x - ((dblToByte x : Nat) : ℚ) / 255| ≤ 1 / 255 := by
  obtain ⟨_, lo, hi⟩ := dblToByte_spec x h0 h1
  rw [abs_le]
  constructor
  · have : ((dblToByte x : Nat) : ℚ) / 255 ≤ x := by
      rw [div_le_iff₀ (by norm_num : (0 : ℚ) < 255)]; exact lo
    linarith
  · have : x < (((dblToByte x : Nat) : ℚ) + 1) / 255 := by
      rw [lt_div_iff₀ (by norm_num : (0 : ℚ) < 255)]; exact hi
    have e : (((dblToByte x : Nat) : ℚ) + 1) / 255 = ((dblToByte x : Nat) : ℚ) / 255 + 1 / 255 := by
      ring
    linarith

open color_type_t color_rc in
theorem colorCvt_from_byte (env : Env) (st : State) (r g b a : Nat) (ncolor : gvcolor_t)
    (hne : RGBA_BYTE ≠ ncolor.type)
    (hr : r < 256) (hg : g < 256) (hb : b < 256) (ha : a < 256) :
    colorCvt env st ⟨.rgba r g b a, RGBA_BYTE⟩ ncolor =
      (colorxlate_hex r g b a ncolor.u ncolor.type).map
        (fun u => (st, COLOR_OK, (⟨u, ncolor.type⟩ : gvcolor_t))) := by
  unfold colorCvt
  rw [if_neg hne]
  exact colorxlate_snprintf_hex env st r g b a _ _ hr hg hb ha

open color_type_t color_rc in
theorem colorCvt_from_word (env : Env) (st : State) (r g b a : Int) (ncolor : gvcolor_t)
    (hne : RGBA_WORD ≠ ncolor.type)
    (hr : 0 ≤ r ∧ r ≤ 65535) (hg : 0 ≤ g ∧ g ≤ 65535) (hb : 0 ≤ b ∧ b ≤ 65535)
    (ha : 0 ≤ a ∧ a ≤ 65535) :
    colorCvt env st ⟨.rrggbbaa r g b a, RGBA_WORD⟩ ncolor =
      (colorxlate_hex (r / 257).toNat (g / 257).toNat (b / 257).toNat (a / 257).toNat
          ncolor.u ncolor.type).map
        (fun u => (st, COLOR_OK, (⟨u, ncolor.type⟩ : gvcolor_t))) := by
  have lr := wordToByte_lt r hr.1 hr.2
  have lg := wordToByte_lt g hg.1 hg.2
  have lb := wordToByte_lt b hb.1 hb.2
  have la := wordToByte_lt a ha.1 ha.2
  unfold colorCvt
  rw [if_neg hne]
  simp only [rgba_wordToByte]
  rw [colorxlate_snprintf_hex env st _ _ _ _ _ _ lr lg lb la,
    wordToByte_of_valid r hr.1 hr.2, wordToByte_of_valid g hg.1 hg.2,
    wordToByte_of_valid b hb.1 hb.2, wordToByte_of_valid a ha.1 ha.2]

open color_type_t color_rc in
theorem colorCvt_from_double (env : Env) (st : State) (r g b a : ℚ) (ncolor : gvcolor_t)
    (hne : RGBA_DOUBLE ≠ ncolor.type)
    (hr : 0 ≤ r ∧ r ≤ 1) (hg : 0 ≤ g ∧ g ≤ 1) (hb : 0 ≤ b ∧ b ≤ 1) (ha : 0 ≤ a ∧ a ≤ 1) :
    colorCvt env st ⟨.RGBA r g b a, RGBA_DOUBLE⟩ ncolor =
      (colorxlate_hex (dblToByte r) (dblToByte g) (dblToByte b) (dblToByte a)
          ncolor.u ncolor.type).map
        (fun u => (st, COLOR_OK, (⟨u, ncolor.type⟩ : gvcolor_t))) := by
  unfold colorCvt
  rw [if_neg hne]
  simp only [rgba_dblToByte]
  exact colorxlate_snprintf_hex env st _ _ _ _ _ _ (dblToByte_spec r hr.1 hr.2).1
    (dblToByte_spec g hg.1 hg.2).1 (dblToByte_spec b hb.1 hb.2).1
    (dblToByte_spec a ha.1 ha.2).1

/-! ## Round trips through colorCvt -/

theorem roundTripTolerance_nonneg (t : color_type_t) : 0 ≤ roundTripTolerance t := by
  cases t <;> simp [roundTripTolerance]

theorem channelsWithin_self (tol : ℚ) (htol : 0 ≤ tol) (c : gvcolor_t) (hv : validColor c) :
    channelsWithin tol c.u c.u := by
  obtain ⟨u, t⟩ := c
  cases t <;> cases u <;> simp [validColor] at hv <;> simp [channelsWithin, htol]

theorem colorCvt_same_type (env : Env) (st : State) (ocolor ncolor : gvcolor_t)
    (h : ocolor.type = ncolor.type) :
    colorCvt env st ocolor ncolor = some (st, color_rc.COLOR_OK, ⟨ocolor.u, ncolor.type⟩) := by
  unfold colorCvt
  rw [if_pos h]

theorem word_byte_word_close (w : Int) (h0 : 0 ≤ w) (h1 : w ≤ 65535) :
    |(w : ℚ) - ((257 * (((w / 257).toNat : Nat) : Int) : Int) : ℚ)| ≤ 256 := by
  have hk : w - 256 ≤ 257 * (((w / 257).toNat : Nat) : Int) ∧
      257 * (((w / 257).toNat : Nat) : Int) ≤ w := by omega
  obtain ⟨k1, k2⟩ := hk
  have q1 : ((w - 256 : Int) : ℚ) ≤ ((257 * (((w / 257).toNat : Nat) : Int) : Int) : ℚ) :=
    Int.cast_le.2 k1
  have q2 : ((257 * (((w / 257).toNat : Nat) : Int) : Int) : ℚ) ≤ (w : ℚ) := Int.cast_le.2 k2
  rw [abs_le]
  push_cast at q1 q2 ⊢
  constructor <;> linarith

theorem byte_unit (r : Nat) (h : r < 256) : 0 ≤ (r : ℚ) / 255 ∧ (r : ℚ) / 255 ≤ 1 := by
  constructor
  · positivity
  · rw [div_le_one (by norm_num : (0 : ℚ) < 255)]
    have : r ≤ 255 := by omega
    exact_mod_cast this

theorem word_div_lt (w : Int) (h0 : 0 ≤ w) (h1 : w ≤ 65535) : (w / 257).toNat < 256 := by
  omega

theorem word_mul_div (n : Nat) : (257 * (n : Int) / 257).toNat = n := by
  omega

open color_type_t color_rc in
theorem colorCvt_byte_to_double (env : Env) (st : State) (r g b a : Nat) (d : color_u)
    (hr : r < 256) (hg : g < 256) (hb : b < 256) (ha : a < 256) :
    colorCvt env st ⟨.rgba r g b a, RGBA_BYTE⟩ ⟨d, RGBA_DOUBLE⟩ =
      some (st, COLOR_OK, ⟨.RGBA ((r : ℚ) / 255) ((g : ℚ) / 255) ((b : ℚ) / 255)
        ((a : ℚ) / 255), RGBA_DOUBLE⟩) := by
  rw [colorCvt_from_byte env st r g b a _ (by simp) hr hg hb ha]
  rfl

open color_type_t color_rc in
theorem colorCvt_double_to_byte (env : Env) (st : State) (r g b a : ℚ) (d : color_u)
    (hr : 0 ≤ r ∧ r ≤ 1) (hg : 0 ≤ g ∧ g ≤ 1) (hb : 0 ≤ b ∧ b ≤ 1) (ha : 0 ≤ a ∧ a ≤ 1) :
    colorCvt env st ⟨.RGBA r g b a, RGBA_DOUBLE⟩ ⟨d, RGBA_BYTE⟩ =
      some (st, COLOR_OK, ⟨.rgba (dblToByte r) (dblToByte g) (dblToByte b) (dblToByte a),
        RGBA_BYTE⟩) := by
  rw [colorCvt_from_double env st r g b a _ (by simp) hr hg hb ha]
  simp only [colorxlate_hex, Option.map_some',
    Nat.mod_eq_of_lt (dblToByte_spec r hr.1 hr.2).1,
    Nat.mod_eq_of_lt (dblToByte_spec g hg.1 hg.2).1,
    Nat.mod_eq_of_lt (dblToByte_spec b hb.1 hb.2).1,
    Nat.mod_eq_of_lt (dblToByte_spec a ha.1 ha.2).1]

open color_type_t color_rc in
theorem colorCvt_word_to_double (env : Env) (st : State) (r g b a : Int) (d : color_u)
    (hr : 0 ≤ r ∧ r ≤ 65535) (hg : 0 ≤ g ∧ g ≤ 65535) (hb : 0 ≤ b ∧ b ≤ 65535)
    (ha : 0 ≤ a ∧ a ≤ 65535) :
    colorCvt env st ⟨.rrggbbaa r g b a, RGBA_WORD⟩ ⟨d, RGBA_DOUBLE⟩ =
      some (st, COLOR_OK, ⟨.RGBA (((r / 257).toNat : ℚ) / 255) (((g / 257).toNat : ℚ) / 255)
        (((b / 257).toNat : ℚ) / 255) (((a / 257).toNat : ℚ) / 255), RGBA_DOUBLE⟩) := by
  rw [colorCvt_from_word env st r g b a _ (by simp) hr hg hb ha]
  rfl

open color_type_t color_rc in
theorem colorCvt_double_to_word (env : Env) (st : State) (r g b a : ℚ) (d : color_u)
    (hr : 0 ≤ r ∧ r ≤ 1) (hg : 0 ≤ g ∧ g ≤ 1) (hb : 0 ≤ b ∧ b ≤ 1) (ha : 0 ≤ a ∧ a ≤ 1) :
    colorCvt env st ⟨.RGBA r g b a, RGBA_DOUBLE⟩ ⟨d, RGBA_WORD⟩ =
      some (st, COLOR_OK, ⟨.rrggbbaa (257 * (dblToByte r : Int)) (257 * (dblToByte g : Int))
        (257 * (dblToByte b : Int)) (257 * (dblToByte a : Int)), RGBA_WORD⟩) := by
  rw [colorCvt_from_double env st r g b a _ (by simp) hr hg hb ha]
  simp only [colorxlate_hex, Option.map_some',
    word_of_byte _ (dblToByte_spec r hr.1 hr.2).1,
    word_of_byte _ (dblToByte_spec g hg.1 hg.2).1,
    word_of_byte _ (dblToByte_spec b hb.1 hb.2).1,
    word_of_byte _ (dblToByte_spec a ha.1 ha.2).1]

open color_type_t color_rc in
theorem colorCvt_from_hsva_zero (d : color_u) (t : color_type_t) (hne : HSVA_DOUBLE ≠ t) :
    colorCvt sample_env_zero State.init ⟨.HSVA 0 0 0 0, HSVA_DOUBLE⟩ ⟨d, t⟩ =
      (colorxlate_hsv 0 0 0 d t).map
        (fun u => (State.init, COLOR_OK, (⟨u, t⟩ : gvcolor_t))) := by
  have htext : sample_env_zero.snprintf_hsva 0 0 0 0 = "0.000 0.000 0.000 0.000".toList := by
    simp [sample_env_zero]
  have hsk : skip_blanks "0.000 0.000 0.000 0.000".toList
      = "0.000 0.000 0.000 0.000".toList := by decide
  have hcb : commas_to_blanks "0.000 0.000 0.000 0.000".toList
      = "0.000 0.000 0.000 0.000".toList := by decide
  have hscan : sample_env_zero.sscanf_lf3 "0.000 0.000 0.000 0.000".toList = some (0, 0, 0) := by
    simp [sample_env_zero]
  unfold colorCvt
  rw [if_neg hne]
  simp only [htext]
  unfold colorxlate
  simp only [hsk, hcb, hscan]
  rw [if_neg (by decide), if_pos (by decide)]

open color_type_t color_rc in
/-- C9 (as stated, refuted), with the library calls on doubles as they behave on
four zeros.  CMYK black is a valid `CMYK_BYTE` colour and `colorCvt` to `RGBA_BYTE`
returns `COLOR_UNKNOWN`, so no round trip through `CMYK_BYTE` succeeds.  The
transparent black of each of `RGBA_BYTE`, `RGBA_WORD` and `RGBA_DOUBLE` converts to
the HSVA colour (0, 0, 0, 0), which converts back to opaque black: alpha goes
from 0 to its maximum.  The HSVA colour (0, 0, 0, 0) itself comes back from each
of the three RGBA models as (0, 0, 0, 1). -/
theorem colorCvt_round_trip_counterexample :
    (validColor ⟨.cmyk 0 0 0 255, CMYK_BYTE⟩ ∧
      colorCvt sample_env_zero State.init ⟨.cmyk 0 0 0 255, CMYK_BYTE⟩ ⟨.rgba 9 9 9 9, RGBA_BYTE⟩
        = some (State.init, COLOR_UNKNOWN, ⟨.rgba 9 9 9 9, RGBA_BYTE⟩)) ∧
    (validColor ⟨.rgba 0 0 0 0, RGBA_BYTE⟩ ∧
      colorCvt sample_env_zero State.init ⟨.rgba 0 0 0 0, RGBA_BYTE⟩ ⟨.index 0, HSVA_DOUBLE⟩
        = some (State.init, COLOR_OK, ⟨.HSVA 0 0 0 0, HSVA_DOUBLE⟩) ∧
      colorCvt sample_env_zero State.init ⟨.HSVA 0 0 0 0, HSVA_DOUBLE⟩ ⟨.index 0, RGBA_BYTE⟩
        = some (State.init, COLOR_OK, ⟨.rgba 0 0 0 255, RGBA_BYTE⟩)) ∧
    (validColor ⟨.rrggbbaa 0 0 0 0, RGBA_WORD⟩ ∧
      colorCvt sample_env_zero State.init ⟨.rrggbbaa 0 0 0 0, RGBA_WORD⟩ ⟨.index 0, HSVA_DOUBLE⟩
        = some (State.init, COLOR_OK, ⟨.HSVA 0 0 0 0, HSVA_DOUBLE⟩) ∧
      colorCvt sample_env_zero State.init ⟨.HSVA 0 0 0 0, HSVA_DOUBLE⟩ ⟨.index 0, RGBA_WORD⟩
        = some (State.init, COLOR_OK, ⟨.rrggbbaa 0 0 0 65535, RGBA_WORD⟩)) ∧
    (validColor ⟨.RGBA 0 0 0 0, RGBA_DOUBLE⟩ ∧
      colorCvt sample_env_zero State.init ⟨.RGBA 0 0 0 0, RGBA_DOUBLE⟩ ⟨.index 0, HSVA_DOUBLE⟩
        = some (State.init, COLOR_OK, ⟨.HSVA 0 0 0 0, HSVA_DOUBLE⟩) ∧
      colorCvt sample_env_zero State.init ⟨.HSVA 0 0 0 0, HSVA_DOUBLE⟩ ⟨.index 0, RGBA_DOUBLE⟩
        = some (State.init, COLOR_OK, ⟨.RGBA 0 0 0 1, RGBA_DOUBLE⟩)) ∧
    (validColor ⟨.HSVA 0 0 0 0, HSVA_DOUBLE⟩ ∧
      colorCvt sample_env_zero State.init ⟨.rgba 0 0 0 255, RGBA_BYTE⟩ ⟨.index 0, HSVA_DOUBLE⟩
        = some (State.init, COLOR_OK, ⟨.HSVA 0 0 0 1, HSVA_DOUBLE⟩) ∧
      colorCvt sample_env_zero State.init ⟨.rrggbbaa 0 0 0 65535, RGBA_WORD⟩
          ⟨.index 0, HSVA_DOUBLE⟩
        = some (State.init, COLOR_OK, ⟨.HSVA 0 0 0 1, HSVA_DOUBLE⟩) ∧
      colorCvt sample_env_zero State.init ⟨.RGBA 0 0 0 1, RGBA_DOUBLE⟩ ⟨.index 0, HSVA_DOUBLE⟩
        = some (State.init, COLOR_OK, ⟨.HSVA 0 0 0 1, HSVA_DOUBLE⟩)) := by
  have hz : dblToByte 0 = 0 := by simpa using dblToByte_of_byte 0 (by norm_num)
  have h1 : dblToByte 1 = 255 := by
    have := dblToByte_of_byte 255 (by norm_num)
    norm_num at this
    exact this
  refine ⟨⟨by simp [validColor], by simp [colorCvt]⟩, ⟨by simp [validColor], ?_, ?_⟩,
    ⟨by simp [validColor], ?_, ?_⟩, ⟨by simp [validColor], ?_, ?_⟩,
    ⟨by simp [validColor], ?_, ?_, ?_⟩⟩
  · rw [colorCvt_from_byte _ _ 0 0 0 0 _ (by simp) (by norm_num) (by norm_num) (by norm_num)
      (by norm_num)]
    simp [colorxlate_hex, rgb2hsv]
  · rw [colorCvt_from_hsva_zero _ _ (by simp)]
    simp [colorxlate_hsv, hsv2rgb, toUChar, dtoi]
  · rw [colorCvt_from_word _ _ 0 0 0 0 _ (by simp) (by norm_num) (by norm_num) (by norm_num)
      (by norm_num)]
    simp [colorxlate_hex, rgb2hsv]
  · rw [colorCvt_from_hsva_zero _ _ (by simp)]
    simp [colorxlate_hsv, hsv2rgb, dtoi]
  · rw [colorCvt_from_double _ _ 0 0 0 0 _ (by simp) (by norm_num) (by norm_num) (by norm_num)
      (by norm_num)]
    simp [colorxlate_hex, rgb2hsv, hz]
  · rw [colorCvt_from_hsva_zero _ _ (by simp)]
    simp [colorxlate_hsv, hsv2rgb]
  · rw [colorCvt_from_byte _ _ 0 0 0 255 _ (by simp) (by norm_num) (by norm_num) (by norm_num)
      (by norm_num)]
    simp [colorxlate_hex, rgb2hsv]
  · rw [colorCvt_from_word _ _ 0 0 0 65535 _ (by simp) (by norm_num) (by norm_num)
      (by norm_num) (by norm_num)]
    simp [colorxlate_hex, rgb2hsv]
  · rw [colorCvt_from_double _ _ 0 0 0 1 _ (by simp) (by norm_num) (by norm_num) (by norm_num)
      (by norm_num)]
    simp [colorxlate_hex, rgb2hsv, hz, h1]

open color_type_t color_rc in
/-- C9 (amended): for colour models `A` and `B` that are equal, or are both among
`RGBA_BYTE`, `RGBA_WORD` and `RGBA_DOUBLE`, and every valid colour `c` of model `A`,
converting `c` to `B` with `colorCvt` and the result back to `A` succeeds both times
and recovers `c` within one byte step on the scale of `A` on every channel (256
for `RGBA_WORD`, 1/255 for `RGBA_DOUBLE`); it recovers `c` exactly when `A = B` or `A`
is `RGBA_BYTE`. -/
theorem colorCvt_round_trip (env : Env) (st : State) (c : gvcolor_t) (B : color_type_t)
    (d1 d2 : color_u) (hv : validColor c)
    (hAB : c.type = B ∨
      ((c.type = RGBA_BYTE ∨ c.type = RGBA_WORD ∨ c.type = RGBA_DOUBLE) ∧
        (B = RGBA_BYTE ∨ B = RGBA_WORD ∨ B = RGBA_DOUBLE))) :
    ∃ mid back : gvcolor_t,
      colorCvt env st c ⟨d1, B⟩ = some (st, COLOR_OK, mid) ∧ mid.type = B ∧
      colorCvt env st mid ⟨d2, c.type⟩ = some (st, COLOR_OK, back) ∧ back.type = c.type ∧
      channelsWithin (roundTripTolerance c.type) c.u back.u ∧
      ((c.type = B ∨ c.type = RGBA_BYTE) → back = c) := by
  by_cases hsame : c.type = B
  · refine ⟨⟨c.u, B⟩, c, ?_, rfl, ?_, rfl,
      channelsWithin_self _ (roundTripTolerance_nonneg _) c hv, fun _ => rfl⟩
    · exact colorCvt_same_type env st c ⟨d1, B⟩ hsame
    · rw [colorCvt_same_type env st ⟨c.u, B⟩ ⟨d2, c.type⟩ hsame.symm]
  · have hoff := hAB.resolve_left hsame
    obtain ⟨u, t⟩ := c
    simp only at hsame hoff hv ⊢
    rcases hoff with ⟨ht | ht | ht, hB | hB | hB⟩
    · exact absurd (ht.trans hB.symm) hsame
    · -- byte, word, byte
      subst ht; subst hB
      cases u <;> simp [validColor] at hv
      rename_i r g b a
      obtain ⟨hr, hg, hb, ha⟩ := hv
      refine ⟨_, _, colorCvt_byte_to_word env st r g b a d1 hr hg hb ha, rfl,
        colorCvt_word_to_byte env st _ _ _ _ d2 (by omega) (by omega) (by omega) (by omega),
        rfl, ?_, ?_⟩
      · simp [channelsWithin, word_mul_div, roundTripTolerance]
      · intro _
        simp [word_mul_div]
    · -- byte, double, byte
      subst ht; subst hB
      cases u <;> simp [validColor] at hv
      rename_i r g b a
      obtain ⟨hr, hg, hb, ha⟩ := hv
      refine ⟨_, _, colorCvt_byte_to_double env st r g b a d1 hr hg hb ha, rfl,
        colorCvt_double_to_byte env st _ _ _ _ d2 (byte_unit r hr) (byte_unit g hg)
          (byte_unit b hb) (byte_unit a ha), rfl, ?_, ?_⟩
      · simp [channelsWithin, roundTripTolerance, dblToByte_of_byte r hr,
          dblToByte_of_byte g hg, dblToByte_of_byte b hb, dblToByte_of_byte a ha]
      · intro _
        simp [dblToByte_of_byte r hr, dblToByte_of_byte g hg, dblToByte_of_byte b hb,
          dblToByte_of_byte a ha]
    · -- word, byte, word
      subst ht; subst hB
      cases u <;> simp [validColor] at hv
      rename_i r g b a
      obtain ⟨hr, hg, hb, ha⟩ := hv
      refine ⟨_, _, colorCvt_word_to_byte env st r g b a d1 hr hg hb ha, rfl,
        colorCvt_byte_to_word env st _ _ _ _ d2 (by omega) (by omega) (by omega) (by omega),
        rfl, ?_, ?_⟩
      · exact ⟨word_byte_word_close r hr.1 hr.2, word_byte_word_close g hg.1 hg.2,
          word_byte_word_close b hb.1 hb.2, word_byte_word_close a ha.1 ha.2⟩
      · intro h
        simp at h
    · exact absurd (ht.trans hB.symm) hsame
    · -- word, double, word
      subst ht; subst hB
      cases u <;> simp [validColor] at hv
      rename_i r g b a
      obtain ⟨hr, hg, hb, ha⟩ := hv
      have lr := word_div_lt r hr.1 hr.2
      have lg := word_div_lt g hg.1 hg.2
      have lb := word_div_lt b hb.1 hb.2
      have la := word_div_lt a ha.1 ha.2
      refine ⟨_, _, colorCvt_word_to_double env st r g b a d1 hr hg hb ha, rfl,
        colorCvt_double_to_word env st _ _ _ _ d2 (byte_unit _ lr) (byte_unit _ lg)
          (byte_unit _ lb) (byte_unit _ la), rfl, ?_, ?_⟩
      · simp only [dblToByte_of_byte _ lr, dblToByte_of_byte _ lg, dblToByte_of_byte _ lb,
          dblToByte_of_byte _ la]
        exact ⟨word_byte_word_close r hr.1 hr.2, word_byte_word_close g hg.1 hg.2,
          word_byte_word_close b hb.1 hb.2, word_byte_word_close a ha.1 ha.2⟩
      · intro h
        simp at h
    · -- double, byte, double
      subst ht; subst hB
      cases u <;> simp [validColor] at hv
      rename_i r g b a
      obtain ⟨hr, hg, hb, ha⟩ := hv
      refine ⟨_, _, colorCvt_double_to_byte env st r g b a d1 hr hg hb ha, rfl,
        colorCvt_byte_to_double env st _ _ _ _ d2 (dblToByte_spec r hr.1 hr.2).1
          (dblToByte_spec g hg.1 hg.2).1 (dblToByte_spec b hb.1 hb.2).1
          (dblToByte_spec a ha.1 ha.2).1, rfl, ?_, ?_⟩
      · exact ⟨dblToByte_close r hr.1 hr.2, dblToByte_close g hg.1 hg.2,
          dblToByte_close b hb.1 hb.2, dblToByte_close a ha.1 ha.2⟩
      · intro h
        simp at h
    · -- double, word, double
      subst ht; subst hB
      cases u <;> simp [validColor] at hv
      rename_i r g b a
      obtain ⟨hr, hg, hb, ha⟩ := hv
      have kr := (dblToByte_spec r hr.1 hr.2).1
      have kg := (dblToByte_spec g hg.1 hg.2).1
      have kb := (dblToByte_spec b hb.1 hb.2).1
      have ka := (dblToByte_spec a ha.1 ha.2).1
      refine ⟨_, _, colorCvt_double_to_word env st r g b a d1 hr hg hb ha, rfl,
        colorCvt_word_to_double env st _ _ _ _ d2 (by omega) (by omega) (by omega) (by omega),
        rfl, ?_, ?_⟩
      · simp only [word_mul_div]
        exact ⟨dblToByte_close r hr.1 hr.2, dblToByte_close g hg.1 hg.2,
          dblToByte_close b hb.1 hb.2, dblToByte_close a ha.1 ha.2⟩
      · intro h
        simp at h
    · exact absurd (ht.trans hB.symm) hsame

open color_type_t color_rc in
/-- Witness for C9 (amended): the `RGBA_DOUBLE` colour (1, 0.5, 0.3, 1) converted to
`RGBA_WORD` and back. -/
theorem colorCvt_round_trip_witness :
    validColor ⟨.RGBA 1 (1 / 2) (3 / 10) 1, RGBA_DOUBLE⟩ ∧
    ∃ mid back : gvcolor_t,
      colorCvt sample_env State.init ⟨.RGBA 1 (1 / 2) (3 / 10) 1, RGBA_DOUBLE⟩
        ⟨.index 0, RGBA_WORD⟩ = some (State.init, COLOR_OK, mid) ∧ mid.type = RGBA_WORD ∧
      colorCvt sample_env State.init mid ⟨.index 0, RGBA_DOUBLE⟩
        = some (State.init, COLOR_OK, back) ∧ back.type = RGBA_DOUBLE ∧
      channelsWithin (roundTripTolerance RGBA_DOUBLE) (.RGBA 1 (1 / 2) (3 / 10) 1) back.u ∧
      ((RGBA_DOUBLE = RGBA_WORD ∨ RGBA_DOUBLE = RGBA_BYTE) →
        back = ⟨.RGBA 1 (1 / 2) (3 / 10) 1, RGBA_DOUBLE⟩) :=
  ⟨by norm_num [validColor],
   colorCvt_round_trip sample_env State.init ⟨.RGBA 1 (1 / 2) (3 / 10) 1, RGBA_DOUBLE⟩
     RGBA_WORD (.index 0) (.index 0) (by norm_num [validColor])
     (Or.inr ⟨Or.inr (Or.inr rfl), Or.inr (Or.inl rfl)⟩)⟩

/-! ## The scheme pointer and the buffer of canontoken -/

theorem canontoken_length (s : List Char) : (canontoken s).length = s.length := by
  rw [canontoken_eq_map, List.length_map]

theorem tolower_tolower (c : Char) : tolower (tolower c) = tolower c := by
  by_cases hu : isupper c = true
  · have h1 : tolower c = Char.ofNat (c.toNat + 32) := by simp [tolower, hu]
    rw [h1]
    simp only [isupper, Bool.and_eq_true, decide_eq_true_eq] at hu
    obtain ⟨hu1, hu2⟩ := hu
    generalize c.toNat = n at hu1 hu2
    interval_cases n <;> rfl
  · have h1 : tolower c = c := by simp [tolower, hu]
    rw [h1, h1]

theorem canontoken_idem (s : List Char) : canontoken (canontoken s) = canontoken s := by
  rw [canontoken_eq_map, canontoken_eq_map, List.map_map]
  apply List.map_congr_left
  intro c _
  exact tolower_tolower c

/-- On the buffer of `canontoken` it makes no difference whether a string or its
lower-cased copy is passed. -/
theorem canontoken_mem_canontoken (m : Statics) (s : List Char) :
    canontoken_mem m (canontoken s) = canontoken_mem m s := by
  simp only [canontoken_mem, canontoken_length, canontoken_idem]

/-- Where `resolveColor` does not evaluate `ISNONDFLT(colorscheme)`, its result does
not depend on the scheme. -/
theorem resolveColor_of_not_reads (s1 s2 : Option (List Char)) (str : List Char)
    (h : resolveColor_reads_scheme str = false) :
    resolveColor s1 str = resolveColor s2 str := by
  unfold resolveColor_reads_scheme at h
  unfold resolveColor
  split
  · rfl
  · split
    · rfl
    · split
      · rfl
      · rename_i h1 h2 h3
        rw [if_neg h1, if_neg h2, if_neg h3] at h
        by_cases hs : str.head? = some '/'
        · rw [if_pos hs] at h
          simp only [if_pos hs]
          cases hc : strchr str.tail '/' with
          | none => rfl
          | some ss =>
            rw [hc] at h
            simp only [decide_eq_false_iff_not] at h
            simp only [if_neg h]
        · rw [if_neg hs] at h
          cases h

open color_type_t color_rc in
/-- C10 (as stated, refuted): the pointer that `canontoken` returns for "Blues9" is
passed to `setColorScheme`, and the scheme then reads "blues9"; after a further
call `canontoken("Accent3")` the static `colorscheme` is the same pointer, but the
scheme read through it is "accent3", and the next name resolution turns "x"
into "/accent3/x".  A `colorxlate` call in place of the `canontoken` call changes
the scheme read as well, to the name it resolved, "/blues9/x". -/
theorem colorscheme_aliasing_counterexample :
    (canontoken_mem Statics.init "Blues9".toList).2 = .canon 1 ∧
    run sample_env Statics.init [.canontoken "Blues9".toList, .setColorScheme (.canon 1)]
      = some ⟨.canon 1, none, "blues9".toList, 17, 1⟩ ∧
    deref ⟨.canon 1, none, "blues9".toList, 17, 1⟩ (.canon 1) = some (some "blues9".toList) ∧
    run sample_env Statics.init
        [.canontoken "Blues9".toList, .setColorScheme (.canon 1), .canontoken "Accent3".toList]
      = some ⟨.canon 1, none, "accent3".toList, 17, 1⟩ ∧
    deref ⟨.canon 1, none, "accent3".toList, 17, 1⟩ (.canon 1) = some (some "accent3".toList) ∧
    (resolveColor_mem ⟨.canon 1, none, "accent3".toList, 17, 1⟩ "x".toList).map (fun r => r.2)
      = some "/accent3/x".toList ∧
    run sample_env Statics.init
        [.canontoken "Blues9".toList, .setColorScheme (.canon 1),
          .colorxlate "x".toList ⟨.index 0, COLOR_INDEX⟩ RGBA_BYTE]
      = some ⟨.canon 1, none, "/blues9/x".toList, 17, 1⟩ ∧
    deref ⟨.canon 1, none, "/blues9/x".toList, 17, 1⟩ (.canon 1)
      = some (some "/blues9/x".toList) := by
  refine ⟨by decide, by decide, by decide, by decide, by decide, by decide, ?_, by decide⟩
  rfl

/-- Where `colorxlate` does not read through `colorscheme`, its return code, the
colour it writes and the `last` it leaves do not depend on the scheme. -/
theorem colorxlate_scheme_not_read (env : Env) (s1 s2 : Option (List Char))
    (l : Option hsvrgbacolor_t) (str : List Char) (color : gvcolor_t)
    (target_type : color_type_t)
    (h : (colorxlate_reaches_name env (skip_blanks str)
      && resolveColor_reads_scheme (skip_blanks str)) = false) :
    (colorxlate env ⟨s1, l⟩ str color target_type).map (fun r => (r.1.last, r.2)) =
      (colorxlate env ⟨s2, l⟩ str color target_type).map (fun r => (r.1.last, r.2)) := by
  unfold colorxlate_reaches_name at h
  unfold colorxlate
  simp only []
  cases hh : (if (skip_blanks str).head? = some '#' then sscanf_hex (skip_blanks str) 255
      else none) with
  | some v => simp only [Option.map_map]; rfl
  | none =>
    cases hv : (if (skip_blanks str).head? = some '.' ∨
        ((skip_blanks str).head?.map isdigit) = some true
        then env.sscanf_lf3 (commas_to_blanks (skip_blanks str)) else none) with
    | some v => simp only [Option.map_map]; rfl
    | none =>
      rw [hh, hv] at h
      simp only [Option.isNone_none, Bool.and_self, Bool.true_and] at h
      rw [resolveColor_of_not_reads s1 s2 _ h]
      simp only []
      split <;> simp only [Option.map_map] <;> rfl

theorem canontoken_mem_colorscheme (m : Statics) (str : List Char) :
    (canontoken_mem m str).1.colorscheme = m.colorscheme := by
  unfold canontoken_mem
  split <;> rfl

theorem resolveColor_write_colorscheme (m : Statics) (scheme : Option (List Char))
    (str : List Char) : (resolveColor_write m scheme str).colorscheme = m.colorscheme := by
  unfold resolveColor_write
  split
  · rfl
  · exact canontoken_mem_colorscheme m _

theorem colorxlate_mem_colorscheme (env : Env) (m : Statics) (str : List Char)
    (color : gvcolor_t) (target_type : color_type_t) (res : Statics × color_rc × gvcolor_t)
    (h : colorxlate_mem env m str color target_type = some res) :
    res.1.colorscheme = m.colorscheme := by
  unfold colorxlate_mem at h
  simp only [] at h
  split at h
  · cases h
  · split at h
    · cases h
    · cases h
      simp only []
      split
      · exact resolveColor_write_colorscheme m _ _
      · rfl

theorem colorCvt_mem_colorscheme (env : Env) (m : Statics) (ocolor ncolor : gvcolor_t)
    (res : Statics × color_rc × gvcolor_t)
    (h : colorCvt_mem env m ocolor ncolor = some res) :
    res.1.colorscheme = m.colorscheme := by
  unfold colorCvt_mem at h
  split at h
  · cases h; rfl
  · split at h
    all_goals first
      | (cases h; rfl)
      | (split at h
         all_goals first
           | exact colorxlate_mem_colorscheme _ _ _ _ _ _ h
           | cases h)

theorem step_colorscheme (env : Env) (m m1 : Statics) (c : Call)
    (h : step env m c = some m1) : m1.colorscheme = lastSetScheme m.colorscheme [c] := by
  cases c with
  | setColorScheme s => simp only [step, Option.some.injEq] at h; rw [← h]; rfl
  | colorxlate str color target_type =>
    simp only [step, Option.map_eq_some'] at h
    obtain ⟨res, hres, rfl⟩ := h
    exact colorxlate_mem_colorscheme _ _ _ _ _ _ hres
  | colorCvt ocolor ncolor =>
    simp only [step, Option.map_eq_some'] at h
    obtain ⟨res, hres, rfl⟩ := h
    exact colorCvt_mem_colorscheme _ _ _ _ _ hres
  | canontoken str =>
    simp only [step, Option.some.injEq] at h
    rw [← h]
    exact canontoken_mem_colorscheme m str

theorem run_colorscheme (env : Env) (calls : List Call) :
    ∀ m m1 : Statics, run env m calls = some m1 →
      m1.colorscheme = lastSetScheme m.colorscheme calls := by
  induction calls with
  | nil => intro m m1 h; simp only [run, Option.some.injEq] at h; rw [← h]; rfl
  | cons c cs ih =>
    intro m m1 h
    simp only [run] at h
    cases hs : step env m c with
    | none => rw [hs] at h; cases h
    | some m2 =>
      rw [hs] at h
      rw [ih m2 m1 h, step_colorscheme env m m2 c hs]
      cases c <;> rfl

/-- The name that `resolveColor` produces when the pointer `colorscheme` is null or
points to a string of the caller. -/
theorem resolveColor_mem_of_not_canon (m : Statics) (scheme : Option (List Char))
    (str : List Char) (h : deref m m.colorscheme = some scheme) :
    (resolveColor_mem m str).map (fun r => r.2) = some (resolveColor scheme str) := by
  unfold resolveColor_mem
  by_cases hr : resolveColor_reads_scheme str = true
  · simp only [hr, if_true, h, Option.map_some']
  · simp only [hr, Bool.false_eq_true, if_false, Option.map_some']
    rw [resolveColor_of_not_reads none scheme str (by simpa using hr)]

/-! ## Calls that return -/

theorem colorxlate_isSome (env : Env) (st : State) (str : List Char) (color : gvcolor_t)
    (target_type : color_type_t) (ht : isEnumerator target_type = true) :
    ∃ res, colorxlate env st str color target_type = some res := by
  have h1 : ∀ r g b a u, ∃ v, colorxlate_hex r g b a u target_type = some v := by
    intro r g b a u
    cases target_type <;> first | exact ⟨_, rfl⟩ | simp [isEnumerator] at ht
  have h2 : ∀ H S V u, ∃ v, colorxlate_hsv H S V u target_type = some v := by
    intro H S V u
    cases target_type <;> first | exact ⟨_, rfl⟩ | simp [isEnumerator] at ht
  have h3 : ∀ e u, ∃ v, colorxlate_name e u target_type = some v := by
    intro e u
    cases target_type <;> first | exact ⟨_, rfl⟩ | simp [isEnumerator] at ht
  have h4 : ∀ u, ∃ v, colorxlate_unknown u target_type = some v := by
    intro u
    cases target_type <;> first | exact ⟨_, rfl⟩ | simp [isEnumerator] at ht
  unfold colorxlate
  simp only []
  split
  · rename_i r g b a _
    obtain ⟨v, hv⟩ := h1 r g b a color.u
    exact ⟨_, by rw [hv]; rfl⟩
  · split
    · rename_i H S V _
      obtain ⟨v, hv⟩ := h2 H S V color.u
      exact ⟨_, by rw [hv]; rfl⟩
    · split
      · rename_i e _
        obtain ⟨v, hv⟩ := h3 e color.u
        exact ⟨_, by rw [hv]; rfl⟩
      · obtain ⟨v, hv⟩ := h4 color.u
        exact ⟨_, by rw [hv]; rfl⟩

theorem deref_of_not_canon (m : Statics) (p : scheme_ptr) (h : ∀ b, p ≠ .canon b) :
    ∃ scheme, deref m p = some scheme := by
  cases p with
  | null => exact ⟨_, rfl⟩
  | caller s => exact ⟨_, rfl⟩
  | canon b => exact absurd rfl (h b)

theorem colorxlate_mem_isSome (env : Env) (m : Statics) (str : List Char) (color : gvcolor_t)
    (target_type : color_type_t) (ht : isEnumerator target_type = true)
    (hp : ∀ b, m.colorscheme ≠ .canon b) :
    ∃ res, colorxlate_mem env m str color target_type = some res := by
  obtain ⟨scheme, hs⟩ := deref_of_not_canon m m.colorscheme hp
  have hd : ∃ sch, (if (colorxlate_reaches_name env (skip_blanks str)
        && resolveColor_reads_scheme (skip_blanks str)) = true
      then deref m m.colorscheme else some none) = some sch := by
    split
    · exact ⟨_, hs⟩
    · exact ⟨_, rfl⟩
  obtain ⟨sch, hsch⟩ := hd
  obtain ⟨res, hres⟩ := colorxlate_isSome env ⟨sch, m.last⟩ str color target_type ht
  unfold colorxlate_mem
  simp only [hsch, hres]
  exact ⟨_, rfl⟩

open color_type_t in
theorem colorCvt_mem_isSome (env : Env) (m : Statics) (ocolor ncolor : gvcolor_t)
    (hplain : (Call.colorCvt ocolor ncolor).plain = true)
    (hp : ∀ b, m.colorscheme ≠ .canon b) :
    ∃ res, colorCvt_mem env m ocolor ncolor = some res := by
  unfold colorCvt_mem
  split
  · exact ⟨_, rfl⟩
  · rename_i hne
    simp only [Call.plain, hne, decide_False, Bool.false_or, Bool.and_eq_true] at hplain
    obtain ⟨ht, hu⟩ := hplain
    obtain ⟨u, t⟩ := ocolor
    cases t <;> cases u <;> simp [unionMatchesType] at hu <;>
      first
        | exact ⟨_, rfl⟩
        | exact colorxlate_mem_isSome env m _ ncolor ncolor.type ht hp

theorem run_isSome (env : Env) (calls : List Call) :
    ∀ m : Statics, (∀ b, m.colorscheme ≠ .canon b) → (∀ c ∈ calls, c.plain = true) →
      ∃ m1, run env m calls = some m1 := by
  induction calls with
  | nil => intro m _ _; exact ⟨m, rfl⟩
  | cons c cs ih =>
    intro m hp hplain
    have hc : c.plain = true := hplain c (by simp)
    have hcs : ∀ d ∈ cs, d.plain = true := fun d hd => hplain d (by simp [hd])
    have hstep : ∃ m2, step env m c = some m2 ∧ ∀ b, m2.colorscheme ≠ .canon b := by
      cases c with
      | setColorScheme s =>
        refine ⟨_, rfl, ?_⟩
        intro b hb
        cases s with
        | null => cases hb
        | caller t => cases hb
        | canon k => simp [Call.plain] at hc
      | colorxlate str color target_type =>
        obtain ⟨res, hres⟩ := colorxlate_mem_isSome env m str color target_type hc hp
        refine ⟨res.1, by simp [step, hres], ?_⟩
        rw [colorxlate_mem_colorscheme _ _ _ _ _ _ hres]
        exact hp
      | colorCvt ocolor ncolor =>
        obtain ⟨res, hres⟩ := colorCvt_mem_isSome env m ocolor ncolor hc hp
        refine ⟨res.1, by simp [step, hres], ?_⟩
        rw [colorCvt_mem_colorscheme _ _ _ _ _ hres]
        exact hp
      | canontoken str =>
        refine ⟨_, rfl, ?_⟩
        rw [canontoken_mem_colorscheme]
        exact hp
    obtain ⟨m2, h2, hp2⟩ := hstep
    obtain ⟨m1, h1⟩ := ih m2 hp2 hcs
    exact ⟨m1, by simp only [run, h2, h1]⟩

/-! ## Only setColorScheme assigns the scheme pointer -/

open color_type_t color_rc in
/-- C10 (amended): the static `colorscheme` is null at program start and is
assigned only by `setColorScheme`: after any sequence of calls to `setColorScheme`,
`colorxlate`, `colorCvt` and `canontoken` that returns, it is the pointer passed to
the most recent `setColorScheme` call (null if there was none).  When that
pointer is null, or points to a string outside the buffer of `canontoken`, the
next name resolution resolves with no scheme, respectively with that string
as scheme.  A sequence returns whenever no scheme argument points into the
buffer of `canontoken`, every target type is an enumerator and every source
colour of `colorCvt` holds the member its type names. -/
theorem colorscheme_pointer_only_set_by_setColorScheme (env : Env) (calls : List Call) :
    Statics.init.colorscheme = .null ∧
    (∀ m, run env Statics.init calls = some m →
      m.colorscheme = lastSetScheme .null calls ∧
      (lastSetScheme .null calls = .null →
        ∀ str, (resolveColor_mem m str).map (fun r => r.2) = some (resolveColor none str)) ∧
      (∀ s, lastSetScheme .null calls = .caller s →
        ∀ str, (resolveColor_mem m str).map (fun r => r.2)
          = some (resolveColor (some s) str))) ∧
    ((∀ c ∈ calls, c.plain = true) → ∃ m, run env Statics.init calls = some m) := by
  refine ⟨rfl, fun m hm => ?_, fun hplain => ?_⟩
  · have hptr : m.colorscheme = lastSetScheme .null calls :=
      run_colorscheme env calls Statics.init m hm
    refine ⟨hptr, fun hnull str => ?_, fun s hs str => ?_⟩
    · apply resolveColor_mem_of_not_canon
      rw [hptr, hnull]
      rfl
    · apply resolveColor_mem_of_not_canon
      rw [hptr, hs]
      rfl
  · exact run_isSome env calls Statics.init (fun b hb => by cases hb) hplain

open color_type_t color_rc in
/-- Witness for C10 (amended): `setColorScheme` with the caller's string "Blues9",
then `canontoken("Accent3")` and `colorxlate("x")`; the scheme is still "Blues9". -/
theorem colorscheme_pointer_only_set_by_setColorScheme_witness :
    (∀ c ∈ [Call.setColorScheme (.caller "Blues9".toList), Call.canontoken "Accent3".toList,
        Call.colorxlate "x".toList ⟨.index 0, COLOR_INDEX⟩ RGBA_BYTE], c.plain = true) ∧
    ∃ m, run sample_env Statics.init
        [Call.setColorScheme (.caller "Blues9".toList), Call.canontoken "Accent3".toList,
          Call.colorxlate "x".toList ⟨.index 0, COLOR_INDEX⟩ RGBA_BYTE] = some m ∧
      m.colorscheme = .caller "Blues9".toList ∧
      (resolveColor_mem m "x".toList).map (fun r => r.2) = some "/blues9/x".toList := by
  have T := colorscheme_pointer_only_set_by_setColorScheme sample_env
    [Call.setColorScheme (.caller "Blues9".toList), Call.canontoken "Accent3".toList,
      Call.colorxlate "x".toList ⟨.index 0, COLOR_INDEX⟩ RGBA_BYTE]
  have hplain : ∀ c ∈ [Call.setColorScheme (.caller "Blues9".toList),
      Call.canontoken "Accent3".toList,
      Call.colorxlate "x".toList ⟨.index 0, COLOR_INDEX⟩ RGBA_BYTE], c.plain = true := by
    decide
  obtain ⟨m, hm⟩ := T.2.2 hplain
  obtain ⟨h1, _, h3⟩ := T.2.1 m hm
  exact ⟨hplain, m, hm, h1.trans rfl, (h3 "Blues9".toList rfl "x".toList).trans (by decide)⟩

/-! ## The static `last` points into the table -/

theorem colorxlate_last_mem (env : Env) (st : State) (str : List Char) (color : gvcolor_t)
    (target_type : color_type_t) (res : State × color_rc × gvcolor_t)
    (hinv : ∀ e, st.last = some e → e ∈ env.color_lib)
    (h : colorxlate env st str color target_type = some res) :
    ∀ e, res.1.last = some e → e ∈ env.color_lib := by
  have hnew : ∀ e,
      (if st.last = none ∨ st.last.map (fun e => e.name)
          ≠ some (resolveColor st.colorscheme (skip_blanks str)) then
        bsearch ⟨resolveColor st.colorscheme (skip_blanks str), 0, 0, 0, 0, 0, 0, 0⟩
          env.color_lib colorcmpf
        else st.last) = some e → e ∈ env.color_lib := by
    intro e he
    split at he
    · exact (bsearchAux_some _ _ _ _ _ _ _ he).1
    · exact hinv e he
  unfold colorxlate at h
  simp only [] at h
  split at h
  · simp only [Option.map_eq_some'] at h
    obtain ⟨u, _, rfl⟩ := h
    exact hinv
  · split at h
    · simp only [Option.map_eq_some'] at h
      obtain ⟨u, _, rfl⟩ := h
      exact hinv
    · split at h
      · simp only [Option.map_eq_some'] at h
        obtain ⟨u, _, rfl⟩ := h
        exact hnew
      · simp only [Option.map_eq_some'] at h
        obtain ⟨u, _, rfl⟩ := h
        exact hnew

theorem colorCvt_last_mem (env : Env) (st : State) (ocolor ncolor : gvcolor_t)
    (res : State × color_rc × gvcolor_t)
    (hinv : ∀ e, st.last = some e → e ∈ env.color_lib)
    (h : colorCvt env st ocolor ncolor = some res) :
    ∀ e, res.1.last = some e → e ∈ env.color_lib := by
  unfold colorCvt at h
  split at h
  · cases h; exact hinv
  · split at h
    all_goals first
      | (cases h; exact hinv)
      | (split at h
         all_goals first
           | exact colorxlate_last_mem _ _ _ _ _ _ hinv h
           | cases h)

/-! ## colorxlate on hexadecimal colour text -/

theorem hexval_of_tolower (d : Char) (v : Nat) (h : hexval (tolower d) = some v) :
    hexval d = some v := by
  unfold tolower at h
  split at h
  · rename_i hu
    simp only [isupper, Bool.and_eq_true, decide_eq_true_eq] at hu
    obtain ⟨hu1, hu2⟩ := hu
    have hd : d = Char.ofNat d.toNat := (Char.ofNat_toNat d).symm
    rw [hd]
    generalize d.toNat = n at h hu1 hu2
    interval_cases n <;> exact h
  · exact h

theorem scan_2x_isHex2 (n : Nat) (hn : n < 256) (s rest : List Char) (hs : isHex2 n s) :
    scan_2x (s ++ rest) = some (n, rest) := by
  have hd := fmt_02x_digits n hn
  unfold isHex2 at hs
  rw [← hs, canontoken_eq_map] at hd
  rcases s with _ | ⟨d1, _ | ⟨d2, _ | ⟨d3, t⟩⟩⟩
  · simp at hd
  · simp at hd
  · simp only [List.map_cons, List.map_nil, List.cons.injEq, and_true] at hd
    have := scan_2x_two_digits d1 d2 rest _ _ (hexval_of_tolower _ _ hd.1)
      (hexval_of_tolower _ _ hd.2)
    simp only [List.cons_append, List.nil_append]
    rw [this]
    congr 2
    omega
  · simp at hd

open color_type_t color_rc in
/-- C11: for all bytes `r`, `g`, `b`, `a`, `colorxlate` with target `RGBA_BYTE` on "#"
followed by the two-digit hexadecimal forms of `r`, `g`, `b`, `a` returns `COLOR_OK`
and writes exactly (r, g, b, a); on the text without the alpha digits it
returns `COLOR_OK` and writes (r, g, b, 255). -/
theorem colorxlate_hex_text_rgba_byte (env : Env) (st : State) (color : gvcolor_t)
    (r g b a : Nat) (sr sg sb sa : List Char)
    (hr : r < 256) (hg : g < 256) (hb : b < 256) (ha : a < 256)
    (hsr : isHex2 r sr) (hsg : isHex2 g sg) (hsb : isHex2 b sb) (hsa : isHex2 a sa) :
    colorxlate env st ('#' :: (sr ++ (sg ++ (sb ++ sa)))) color RGBA_BYTE
      = some (st, COLOR_OK, ⟨.rgba r g b a, RGBA_BYTE⟩) ∧
    colorxlate env st ('#' :: (sr ++ (sg ++ sb))) color RGBA_BYTE
      = some (st, COLOR_OK, ⟨.rgba r g b 255, RGBA_BYTE⟩) := by
  have h4 : scan_2x sa = some (a, []) := by
    simpa using scan_2x_isHex2 a ha sa [] hsa
  have h3 : scan_2x sb = some (b, []) := by
    simpa using scan_2x_isHex2 b hb sb [] hsb
  have e8 : sscanf_hex ('#' :: (sr ++ (sg ++ (sb ++ sa)))) 255 = some (r, g, b, a) := by
    simp [sscanf_hex, scan_2x_isHex2 r hr sr _ hsr, scan_2x_isHex2 g hg sg _ hsg,
      scan_2x_isHex2 b hb sb _ hsb, h4]
  have e6 : sscanf_hex ('#' :: (sr ++ (sg ++ sb))) 255 = some (r, g, b, 255) := by
    have hnil : scan_2x [] = none := rfl
    simp only [sscanf_hex, List.head?_cons, if_true, List.tail_cons,
      scan_2x_isHex2 r hr sr _ hsr, scan_2x_isHex2 g hg sg _ hsg, h3, hnil]
  constructor
  · unfold colorxlate
    simp only [skip_blanks, show ('#' = ' ') = False by simp, if_false, List.head?_cons,
      if_true, e8]
    simp [colorxlate_hex, Nat.mod_eq_of_lt hr, Nat.mod_eq_of_lt hg, Nat.mod_eq_of_lt hb,
      Nat.mod_eq_of_lt ha]
  · unfold colorxlate
    simp only [skip_blanks, show ('#' = ' ') = False by simp, if_false, List.head?_cons,
      if_true, e6]
    simp [colorxlate_hex, Nat.mod_eq_of_lt hr, Nat.mod_eq_of_lt hg, Nat.mod_eq_of_lt hb]

open color_type_t color_rc in
/-- Witness for C11: the bytes (255, 0, 128, 64) written "#FF008040", with upper-case
letters, and "#FF0080". -/
theorem colorxlate_hex_text_rgba_byte_witness :
    (isHex2 255 "FF".toList ∧ isHex2 0 "00".toList ∧ isHex2 128 "80".toList ∧
      isHex2 64 "40".toList) ∧
    colorxlate sample_env State.init
        ('#' :: ("FF".toList ++ ("00".toList ++ ("80".toList ++ "40".toList))))
        ⟨.index 0, COLOR_INDEX⟩ RGBA_BYTE
      = some (State.init, COLOR_OK, ⟨.rgba 255 0 128 64, RGBA_BYTE⟩) ∧
    colorxlate sample_env State.init ('#' :: ("FF".toList ++ ("00".toList ++ "80".toList)))
        ⟨.index 0, COLOR_INDEX⟩ RGBA_BYTE
      = some (State.init, COLOR_OK, ⟨.rgba 255 0 128 255, RGBA_BYTE⟩) :=
  ⟨by decide,
   colorxlate_hex_text_rgba_byte sample_env State.init ⟨.index 0, COLOR_INDEX⟩ 255 0 128 64
     "FF".toList "00".toList "80".toList "40".toList (by decide) (by decide) (by decide)
     (by decide) (by decide) (by decide) (by decide) (by decide)⟩

/-! ## colorCvt: the trivial case, the byte and word models, rejected sources -/

open color_type_t color_rc in
/-- C12: when source and destination have the same colour type, whichever it is,
`colorCvt` returns `COLOR_OK` and the destination value is the source value; the
table and the scanning and printing routines play no part, and the statics are
left as they were. -/
theorem colorCvt_trivial_case (env : Env) (st : State) (ocolor ncolor : gvcolor_t)
    (h : ocolor.type = ncolor.type) :
    colorCvt env st ocolor ncolor = some (st, COLOR_OK, ⟨ocolor.u, ncolor.type⟩) ∧
    ∀ env2 : Env, colorCvt env2 st ocolor ncolor = colorCvt env st ocolor ncolor := by
  refine ⟨colorCvt_same_type env st ocolor ncolor h, fun env2 => ?_⟩
  rw [colorCvt_same_type env st ocolor ncolor h, colorCvt_same_type env2 st ocolor ncolor h]

open color_type_t color_rc in
/-- Witness for C12: a `CMYK_BYTE` source and a `CMYK_BYTE` destination. -/
theorem colorCvt_trivial_case_witness :
    (⟨.cmyk 1 2 3 4, CMYK_BYTE⟩ : gvcolor_t).type = (⟨.rgba 9 9 9 9, CMYK_BYTE⟩ : gvcolor_t).type ∧
    colorCvt sample_env State.init ⟨.cmyk 1 2 3 4, CMYK_BYTE⟩ ⟨.rgba 9 9 9 9, CMYK_BYTE⟩
      = some (State.init, COLOR_OK, ⟨.cmyk 1 2 3 4, CMYK_BYTE⟩) :=
  ⟨rfl, (colorCvt_trivial_case sample_env State.init ⟨.cmyk 1 2 3 4, CMYK_BYTE⟩
    ⟨.rgba 9 9 9 9, CMYK_BYTE⟩ rfl).1⟩

open color_type_t color_rc in
/-- C13: for every `RGBA_BYTE` colour (r, g, b, a), `colorCvt` to `RGBA_WORD` returns
`COLOR_OK` with the channels (257 r, 257 g, 257 b, 257 a), and `colorCvt` of that
result back to `RGBA_BYTE` returns `COLOR_OK` with exactly (r, g, b, a). -/
theorem colorCvt_byte_word_exact (env : Env) (st : State) (r g b a : Nat) (d1 d2 : color_u)
    (hr : r < 256) (hg : g < 256) (hb : b < 256) (ha : a < 256) :
    colorCvt env st ⟨.rgba r g b a, RGBA_BYTE⟩ ⟨d1, RGBA_WORD⟩ =
      some (st, COLOR_OK, ⟨.rrggbbaa (257 * (r : Int)) (257 * (g : Int)) (257 * (b : Int))
        (257 * (a : Int)), RGBA_WORD⟩) ∧
    colorCvt env st ⟨.rrggbbaa (257 * (r : Int)) (257 * (g : Int)) (257 * (b : Int))
        (257 * (a : Int)), RGBA_WORD⟩ ⟨d2, RGBA_BYTE⟩ =
      some (st, COLOR_OK, ⟨.rgba r g b a, RGBA_BYTE⟩) := by
  refine ⟨colorCvt_byte_to_word env st r g b a d1 hr hg hb ha, ?_⟩
  rw [colorCvt_word_to_byte env st _ _ _ _ d2 (by omega) (by omega) (by omega) (by omega)]
  have e : ∀ n : Nat, (257 * (n : Int) / 257).toNat = n := by intro n; omega
  simp only [e]

open color_type_t color_rc in
/-- Witness for C13: the `RGBA_BYTE` colour (255, 0, 128, 64). -/
theorem colorCvt_byte_word_exact_witness :
    ((255 : Nat) < 256 ∧ (0 : Nat) < 256 ∧ (128 : Nat) < 256 ∧ (64 : Nat) < 256) ∧
    colorCvt sample_env State.init ⟨.rgba 255 0 128 64, RGBA_BYTE⟩ ⟨.index 0, RGBA_WORD⟩ =
      some (State.init, COLOR_OK, ⟨.rrggbbaa (257 * ((255 : Nat) : Int)) (257 * ((0 : Nat) : Int))
        (257 * ((128 : Nat) : Int)) (257 * ((64 : Nat) : Int)), RGBA_WORD⟩) ∧
    colorCvt sample_env State.init ⟨.rrggbbaa (257 * ((255 : Nat) : Int))
        (257 * ((0 : Nat) : Int)) (257 * ((128 : Nat) : Int)) (257 * ((64 : Nat) : Int)),
        RGBA_WORD⟩ ⟨.index 0, RGBA_BYTE⟩ =
      some (State.init, COLOR_OK, ⟨.rgba 255 0 128 64, RGBA_BYTE⟩) :=
  ⟨by decide,
   colorCvt_byte_word_exact sample_env State.init 255 0 128 64 (.index 0) (.index 0)
     (by decide) (by decide) (by decide) (by decide)⟩

open color_type_t color_rc in
/-- C16: for a source colour of type `CMYK_BYTE` or `COLOR_INDEX`, or of a type
that is none of the enumerators, and a destination of a different type,
`colorCvt` returns `COLOR_UNKNOWN` and leaves the destination, its type and its
value, unchanged. -/
theorem colorCvt_rejected_source (env : Env) (st : State) (ocolor ncolor : gvcolor_t)
    (hsrc : ocolor.type = CMYK_BYTE ∨ ocolor.type = COLOR_INDEX ∨ ∃ n, ocolor.type = other n)
    (hne : ocolor.type ≠ ncolor.type) :
    colorCvt env st ocolor ncolor = some (st, COLOR_UNKNOWN, ncolor) := by
  unfold colorCvt
  rw [if_neg hne]
  rcases hsrc with h | h | ⟨n, h⟩ <;> rw [h]

open color_type_t color_rc in
/-- Witness for C16: a `COLOR_INDEX` source and an `RGBA_BYTE` destination. -/
theorem colorCvt_rejected_source_witness :
    ((⟨.index 3, COLOR_INDEX⟩ : gvcolor_t).type = COLOR_INDEX ∧
      (⟨.index 3, COLOR_INDEX⟩ : gvcolor_t).type ≠ (⟨.rgba 9 9 9 9, RGBA_BYTE⟩ : gvcolor_t).type) ∧
    colorCvt sample_env State.init ⟨.index 3, COLOR_INDEX⟩ ⟨.rgba 9 9 9 9, RGBA_BYTE⟩
      = some (State.init, COLOR_UNKNOWN, ⟨.rgba 9 9 9 9, RGBA_BYTE⟩) :=
  ⟨⟨rfl, by decide⟩,
   colorCvt_rejected_source sample_env State.init ⟨.index 3, COLOR_INDEX⟩
     ⟨.rgba 9 9 9 9, RGBA_BYTE⟩ (Or.inr (Or.inl rfl)) (by decide)⟩

/-! ## colorxlate on number triples and on leading blanks -/

theorem clamp_mem_unit (x : ℚ) : 0 ≤ clamp x ∧ clamp x ≤ 1 := by
  unfold clamp
  exact ⟨le_max_right _ _, max_le (min_le_right _ _) zero_le_one⟩

theorem head_ne_hash_of_number (p : List Char)
    (hfirst : p.head? = some '.' ∨ (p.head?.map isdigit) = some true) :
    p.head? ≠ some '#' := by
  intro h
  rw [h] at hfirst
  revert hfirst
  decide

open color_type_t color_rc in
/-- C14: when the input, after its leading blanks, begins with a digit or '.' and
scans as three numbers `H`, `S`, `V` (commas read as blanks), `colorxlate` with target
`HSVA_DOUBLE` returns `COLOR_OK` and writes (clamp H, clamp S, clamp V, 1), where
`clamp x` is `max (min x 1) 0`: every component lies between 0 and 1 and alpha is
fully opaque. -/
theorem colorxlate_hsv_text_hsva (env : Env) (st : State) (str : List Char)
    (color : gvcolor_t) (H S V : ℚ)
    (hfirst : (skip_blanks str).head? = some '.' ∨
      ((skip_blanks str).head?.map isdigit) = some true)
    (hscan : env.sscanf_lf3 (commas_to_blanks (skip_blanks str)) = some (H, S, V)) :
    colorxlate env st str color HSVA_DOUBLE
      = some (st, COLOR_OK, ⟨.HSVA (clamp H) (clamp S) (clamp V) 1, HSVA_DOUBLE⟩) ∧
    (0 ≤ clamp H ∧ clamp H ≤ 1) ∧ (0 ≤ clamp S ∧ clamp S ≤ 1) ∧
    (0 ≤ clamp V ∧ clamp V ≤ 1) := by
  refine ⟨?_, clamp_mem_unit H, clamp_mem_unit S, clamp_mem_unit V⟩
  have hhash := head_ne_hash_of_number _ hfirst
  unfold colorxlate
  simp only [if_neg hhash, if_pos hfirst, hscan]
  rfl

open color_type_t color_rc in
/-- Witness for C14: the text " .5,.25,2", whose numbers are 0.5, 0.25 and 2. -/
theorem colorxlate_hsv_text_hsva_witness :
    ((skip_blanks " .5,.25,2".toList).head? = some '.' ∧
      sample_env_hsv.sscanf_lf3 (commas_to_blanks (skip_blanks " .5,.25,2".toList))
        = some (1 / 2, 1 / 4, 2)) ∧
    colorxlate sample_env_hsv State.init " .5,.25,2".toList ⟨.index 0, COLOR_INDEX⟩ HSVA_DOUBLE
      = some (State.init, COLOR_OK,
          ⟨.HSVA (clamp (1 / 2)) (clamp (1 / 4)) (clamp 2) 1, HSVA_DOUBLE⟩) :=
  ⟨⟨by decide, rfl⟩,
   (colorxlate_hsv_text_hsva sample_env_hsv State.init " .5,.25,2".toList
     ⟨.index 0, COLOR_INDEX⟩ (1 / 2) (1 / 4) 2 (Or.inl (by decide)) rfl).1⟩

theorem skip_blanks_replicate (n : Nat) (s : List Char) :
    skip_blanks (List.replicate n ' ' ++ s) = skip_blanks s := by
  induction n with
  | zero => rfl
  | succ n ih => simp [List.replicate_succ, skip_blanks, ih]

/-- C15: for every string `s`, every number `n` of leading blanks, every target type
and every state of the statics (the active scheme among them), `colorxlate` on `n`
blanks followed by `s` returns what `colorxlate` returns on `s`: the same code, the
same colour value, the same statics. -/
theorem colorxlate_leading_blanks (env : Env) (st : State) (s : List Char) (n : Nat)
    (color : gvcolor_t) (target_type : color_type_t) :
    colorxlate env st (List.replicate n ' ' ++ s) color target_type
      = colorxlate env st s color target_type := by
  unfold colorxlate
  simp only [skip_blanks_replicate]

/-! ## The static `last` in the states that are reached -/

theorem colorxlate_mem_last_mem (env : Env) (m : Statics) (str : List Char)
    (color : gvcolor_t) (target_type : color_type_t) (res : Statics × color_rc × gvcolor_t)
    (hinv : ∀ e, m.last = some e → e ∈ env.color_lib)
    (h : colorxlate_mem env m str color target_type = some res) :
    ∀ e, res.1.last = some e → e ∈ env.color_lib := by
  unfold colorxlate_mem at h
  simp only [] at h
  split at h
  · cases h
  · rename_i scheme _
    split at h
    · cases h
    · rename_i st rc c hx
      cases h
      exact colorxlate_last_mem env ⟨scheme, m.last⟩ str color target_type _ hinv hx

theorem canontoken_mem_last (m : Statics) (str : List Char) :
    (canontoken_mem m str).1.last = m.last := by
  unfold canontoken_mem
  split <;> rfl

theorem colorCvt_mem_last_mem (env : Env) (m : Statics) (ocolor ncolor : gvcolor_t)
    (res : Statics × color_rc × gvcolor_t)
    (hinv : ∀ e, m.last = some e → e ∈ env.color_lib)
    (h : colorCvt_mem env m ocolor ncolor = some res) :
    ∀ e, res.1.last = some e → e ∈ env.color_lib := by
  unfold colorCvt_mem at h
  split at h
  · cases h; exact hinv
  · split at h
    all_goals first
      | (cases h; exact hinv)
      | (split at h
         all_goals first
           | exact colorxlate_mem_last_mem _ _ _ _ _ _ hinv h
           | cases h)

/-- In every state reached from program start, `last` is null or an entry of the
table. -/
theorem run_last_mem (env : Env) (calls : List Call) :
    ∀ m m1 : Statics, (∀ e, m.last = some e → e ∈ env.color_lib) →
      run env m calls = some m1 → ∀ e, m1.last = some e → e ∈ env.color_lib := by
  induction calls with
  | nil => intro m m1 hinv h; simp only [run, Option.some.injEq] at h; rw [← h]; exact hinv
  | cons c cs ih =>
    intro m m1 hinv h
    simp only [run] at h
    cases hs : step env m c with
    | none => rw [hs] at h; cases h
    | some m2 =>
      rw [hs] at h
      refine ih m2 m1 ?_ h
      cases c with
      | setColorScheme s =>
        simp only [step, Option.some.injEq] at hs
        rw [← hs]; exact hinv
      | colorxlate str color target_type =>
        simp only [step, Option.map_eq_some'] at hs
        obtain ⟨res, hres, rfl⟩ := hs
        exact colorxlate_mem_last_mem _ _ _ _ _ _ hinv hres
      | colorCvt ocolor ncolor =>
        simp only [step, Option.map_eq_some'] at hs
        obtain ⟨res, hres, rfl⟩ := hs
        exact colorCvt_mem_last_mem _ _ _ _ _ hinv hres
      | canontoken str =>
        simp only [step, Option.some.injEq] at hs
        rw [← hs, canontoken_mem_last]; exact hinv

end Colxlate
